import Mathlib

/-!
Shallow embedding of the bluenoise-rs library (src/lib.rs): grid-accelerated
Poisson-disk ("blue noise") sampling over a rectangle, in a bounded and a
wrapping (toroidal) variant.

Modelling conventions:
- f32 values are modelled by real numbers; the constants FRAC_1_SQRT_2 and PI
  are modelled by their ideal real values.
- The external random number generator (an out-of-scope collaborator per the
  specification) is modelled by a stream of draws in the unit interval,
  consumed in exactly the order the source consumes them; gen_range(0.0..w)
  is modelled as the unit draw scaled by w.
- The Vec of optional grid cells is modelled as a total function from the
  linear cell index; in-range accesses are the only ones the source performs
  on the paths modelled here.
- Casts from f32 to usize (which truncate and saturate at zero) are modelled
  as Int.floor followed by Int.toNat.
- The while loop of the iterator is modelled with explicit fuel; the fuel
  passed by next is sufficient whenever the rng stream yields values in
  the unit interval, since every failed round strictly shrinks the active
  list (see the fuel-irrelevance lemma below).
-/

noncomputable section

open scoped Classical

/-- Model of the glam Vec2 value type: an (x, y) pair of coordinates. -/
structure Vec2 where
  x : ℝ
  y : ℝ

/-- Model of std::f32::consts::FRAC_1_SQRT_2. -/
def FRAC_1_SQRT_2 : ℝ := (Real.sqrt 2)⁻¹

/-- Model of std::f32::consts::PI. -/
def PI : ℝ := Real.pi

/-- Model of drawing one value from the rng: head of the stream, and the
advanced stream. -/
def drawUnit (f : ℕ → ℝ) : ℝ × (ℕ → ℝ) := (f 0, fun n => f (n + 1))

/-- A stream of rng draws is valid when every draw lies in the unit
interval, as the rand crate guarantees for gen::<f32>(). -/
def ValidStream (f : ℕ → ℝ) : Prop := ∀ n, 0 ≤ f n ∧ f n < 1

/-- State of the BlueNoise sampler: the struct fields of src/lib.rs
lines 61 to 81. -/
structure BlueNoise where
  width : ℝ
  height : ℝ
  max_samples : ℕ
  radius : ℝ
  radius_squared : ℝ
  cell_size : ℝ
  grid : ℕ → Option Vec2
  grid_width : ℕ
  grid_height : ℕ
  active_points : List Vec2
  rng : ℕ → ℝ
  init : Bool

/-- Constructor BlueNoise::from_rng (lines 123 to 144). There is no
parameter validation in the source: the state is built unconditionally. -/
def BlueNoise.from_rng (width height min_radius : ℝ) (rng : ℕ → ℝ) : BlueNoise :=
  let cell_size := min_radius * FRAC_1_SQRT_2
  let grid_width := (⌈width / cell_size⌉).toNat
  let grid_height := (⌈height / cell_size⌉).toNat
  { width := width
    height := height
    max_samples := 4
    radius := min_radius
    radius_squared := min_radius * min_radius
    cell_size := cell_size
    grid := fun _ => none
    grid_width := grid_width
    grid_height := grid_height
    active_points := []
    rng := rng
    init := false }

/-- Constructor BlueNoise::from_seed (lines 101 to 103); seed_from models
SeedableRng::seed_from_u64 of the rng type parameter, a pure function from
the seed to the stream of draws. -/
def BlueNoise.from_seed (seed_from : ℕ → ℕ → ℝ) (width height min_radius : ℝ)
    (seed : ℕ) : BlueNoise :=
  BlueNoise.from_rng width height min_radius (seed_from seed)

/-- Builder BlueNoise::with_seed (lines 109 to 112): reseeds the rng and
changes nothing else. -/
def BlueNoise.with_seed (seed_from : ℕ → ℕ → ℝ) (s : BlueNoise) (seed : ℕ) : BlueNoise :=
  { s with rng := seed_from seed }

/-- Builder BlueNoise::with_samples (lines 150 to 153). -/
def BlueNoise.with_samples (s : BlueNoise) (max_samples : ℕ) : BlueNoise :=
  { s with max_samples := max_samples }

/-- Builder BlueNoise::with_min_radius (lines 159 to 162): assigns the
radius field only. -/
def BlueNoise.with_min_radius (s : BlueNoise) (min_radius : ℝ) : BlueNoise :=
  { s with radius := min_radius }

/-- BlueNoise::reset (lines 181 to 188): clears init, the active list and
every grid cell; the rng is untouched. -/
def BlueNoise.reset (s : BlueNoise) : BlueNoise :=
  { s with init := false, active_points := [], grid := fun _ => none }

/-- BlueNoise::distance (lines 191 to 193): plain Euclidean distance
(glam Vec2::distance), not squared. -/
def BlueNoise.distance (_s : BlueNoise) (point target : Vec2) : ℝ :=
  Real.sqrt ((point.x - target.x) ^ 2 + (point.y - target.y) ^ 2)

/-- BlueNoise::is_valid (lines 197 to 223): the candidate is rejected
outside the box; otherwise every occupied cell of the clamped 5 by 5 block
around the candidate's cell must hold a point whose distance (not squared)
is at least radius_squared, exactly as the source compares. -/
def BlueNoise.is_valid (s : BlueNoise) (point : Vec2) : Prop :=
  ¬(point.x < 0 ∨ point.x > s.width ∨ point.y < 0 ∨ point.y > s.height) ∧
  (let x := (⌊point.x / s.cell_size⌋).toNat
   let y := (⌊point.y / s.cell_size⌋).toNat
   ∀ cx ∈ List.range' (x - 2) (min (x + 3) s.grid_width - (x - 2)),
     ∀ cy ∈ List.range' (y - 2) (min (y + 3) s.grid_height - (y - 2)),
       ∀ target, s.grid (cy * s.grid_width + cx) = some target →
         s.radius_squared ≤ s.distance point target)

/-- BlueNoise::get_nearby (lines 226 to 234): the candidate around a parent
is at the fixed distance radius + 0.001, at angle 2 pi (seed + sample/max). -/
def BlueNoise.get_nearby (s : BlueNoise) (position : Vec2) (seed : ℝ) (sample : ℕ) : Vec2 :=
  let offset := seed + (sample : ℝ) / (s.max_samples : ℝ)
  let theta := 2 * PI * offset
  let radius := s.radius + 1 / 1000
  ⟨position.x + radius * Real.cos theta, position.y + radius * Real.sin theta⟩

/-- BlueNoise::grid_index (lines 237 to 245). The assert_ne in the source
compares the total cell count with the x cell and cannot fire on the runs
modelled here. -/
def BlueNoise.grid_index (s : BlueNoise) (position : Vec2) : ℕ :=
  s.grid_width * (⌊position.y / s.cell_size⌋).toNat + (⌊position.x / s.cell_size⌋).toNat

/-- BlueNoise::insert_point (lines 248 to 253): stores the point at its
cell (overwriting whatever was there) and appends it to the active list. -/
def BlueNoise.insert_point (s : BlueNoise) (position : Vec2) : BlueNoise :=
  { s with grid := Function.update s.grid (s.grid_index position) (some position),
           active_points := s.active_points ++ [position] }

/-- Parent selection of the iterator (line 268): gen::<f32>() times
(len - 1) as f32, truncated to usize. -/
def pick_index (u : ℝ) (len : ℕ) : ℕ := (⌊u * ((len - 1 : ℕ) : ℝ)⌋).toNat

/-- The for loop over samples (lines 272 to 277): try up to the remaining
number of candidates around the parent, returning the first valid one. -/
def BlueNoise.find_sample (s : BlueNoise) (parent : Vec2) (seed : ℝ) :
    ℕ → ℕ → Option Vec2
  | _, 0 => none
  | sample, remaining + 1 =>
    let point := s.get_nearby parent seed sample
    if s.is_valid point then some point
    else s.find_sample parent seed (sample + 1) remaining

/-- The while loop of Iterator::next (lines 267 to 280), with explicit
fuel. Each pass picks a parent, draws a per-parent seed, tries the samples,
and on failure removes the parent and continues. -/
def BlueNoise.nextLoop : ℕ → BlueNoise → Option Vec2 × BlueNoise
  | 0, s => (none, s)
  | fuel + 1, s =>
    if s.active_points.isEmpty then (none, s)
    else
      let d1 := drawUnit s.rng
      let index := pick_index d1.1 s.active_points.length
      let parent := s.active_points.getD index ⟨0, 0⟩
      let d2 := drawUnit d1.2
      let s1 := { s with rng := d2.2 }
      match s1.find_sample parent d2.1 0 s1.max_samples with
      | some point => (some point, s1.insert_point point)
      | none =>
        BlueNoise.nextLoop fuel { s1 with active_points := s1.active_points.eraseIdx index }

/-- Iterator::next for BlueNoise (lines 259 to 283): the first call draws
and accepts the initial point unconditionally; later calls run the while
loop. -/
def BlueNoise.next (s : BlueNoise) : Option Vec2 × BlueNoise :=
  if s.init then BlueNoise.nextLoop (s.active_points.length + 1) s
  else
    let d1 := drawUnit s.rng
    let d2 := drawUnit d1.2
    let p : Vec2 := ⟨d1.1 * s.width, d2.1 * s.height⟩
    (some p, BlueNoise.insert_point { s with init := true, rng := d2.2 } p)

/-- Iterator::take(k).collect() together with the state it leaves behind:
pull up to k points, stopping at the first terminal answer. -/
def BlueNoise.takeRun : ℕ → BlueNoise → List Vec2 × BlueNoise
  | 0, s => ([], s)
  | k + 1, s =>
    match BlueNoise.next s with
    | (none, s1) => ([], s1)
    | (some p, s1) =>
      let rest := BlueNoise.takeRun k s1
      (p :: rest.1, rest.2)

/-- The points of takeRun. -/
def BlueNoise.takePoints (k : ℕ) (s : BlueNoise) : List Vec2 :=
  (BlueNoise.takeRun k s).1

/-- Model of f32::rem_euclid for a positive modulus: the representative of
x modulo m lying in the interval from 0 (inclusive) to m (exclusive). -/
def fremEuclid (x m : ℝ) : ℝ := x - m * ⌊x / m⌋

/-!
The wrapping (toroidal) variant. In the source, WrappingBlueNoise is a
newtype around BlueNoise (struct WrappingBlueNoise(BlueNoise), line 290);
here its methods are modelled as functions on the inner BlueNoise state.
The constructors and builders delegate to the inner ones unchanged and are
not duplicated; the overridden methods and the iterator are modelled.
-/

namespace WrappingBlueNoise

/-- WrappingBlueNoise::distance (lines 377 to 383): squared toroidal
distance; per axis the minimum of the raw absolute delta and extent minus
that delta, then length_squared of the pair. -/
def distance (s : BlueNoise) (point target : Vec2) : ℝ :=
  let tx := |target.x - point.x|
  let ty := |target.y - point.y|
  let dx := min tx (s.width - tx)
  let dy := min ty (s.height - ty)
  dx ^ 2 + dy ^ 2

/-- WrappingBlueNoise::is_valid (lines 387 to 409): the 5 by 5 block of
cells around the candidate's cell, with indices wrapped by rem_euclid of
the grid dimensions; every occupied cell must hold a point at squared
toroidal distance at least radius_squared. There is no bounding-box
rejection. -/
def is_valid (s : BlueNoise) (point : Vec2) : Prop :=
  let x := ⌊point.x / s.cell_size⌋
  let y := ⌊point.y / s.cell_size⌋
  ∀ cx ∈ (List.range 5).map (fun k => (Int.emod (x - 2 + k) (s.grid_width : ℤ)).toNat),
    ∀ cy ∈ (List.range 5).map (fun k => (Int.emod (y - 2 + k) (s.grid_height : ℤ)).toNat),
      ∀ target, s.grid (cy * s.grid_width + cx) = some target →
        s.radius_squared ≤ distance s point target

/-- WrappingBlueNoise::get_nearby (lines 412 to 418): the inner candidate
with both coordinates wrapped into the domain by rem_euclid. -/
def get_nearby (s : BlueNoise) (position : Vec2) (seed : ℝ) (sample : ℕ) : Vec2 :=
  let nearby := s.get_nearby position seed sample
  ⟨fremEuclid nearby.x s.width, fremEuclid nearby.y s.height⟩

/-- The for loop over samples in the wrapping iterator (lines 437 to 442),
using the wrapping candidate generator and validity test. -/
def find_sample (s : BlueNoise) (parent : Vec2) (seed : ℝ) :
    ℕ → ℕ → Option Vec2
  | _, 0 => none
  | sample, remaining + 1 =>
    let point := get_nearby s parent seed sample
    if is_valid s point then some point
    else find_sample s parent seed (sample + 1) remaining

/-- The while loop of the wrapping Iterator::next (lines 432 to 445);
insertion goes through the inner sampler's insert_point unchanged. -/
def nextLoop : ℕ → BlueNoise → Option Vec2 × BlueNoise
  | 0, s => (none, s)
  | fuel + 1, s =>
    if s.active_points.isEmpty then (none, s)
    else
      let d1 := drawUnit s.rng
      let index := pick_index d1.1 s.active_points.length
      let parent := s.active_points.getD index ⟨0, 0⟩
      let d2 := drawUnit d1.2
      let s1 := { s with rng := d2.2 }
      match find_sample s1 parent d2.1 0 s1.max_samples with
      | some point => (some point, s1.insert_point point)
      | none =>
        nextLoop fuel { s1 with active_points := s1.active_points.eraseIdx index }

/-- Iterator::next for WrappingBlueNoise (lines 424 to 448). -/
def next (s : BlueNoise) : Option Vec2 × BlueNoise :=
  if s.init then nextLoop (s.active_points.length + 1) s
  else
    let d1 := drawUnit s.rng
    let d2 := drawUnit d1.2
    let p : Vec2 := ⟨d1.1 * s.width, d2.1 * s.height⟩
    (some p, BlueNoise.insert_point { s with init := true, rng := d2.2 } p)

/-- Iterator::take(k).collect() for the wrapping sampler, with the final
state. -/
def takeRun : ℕ → BlueNoise → List Vec2 × BlueNoise
  | 0, s => ([], s)
  | k + 1, s =>
    match next s with
    | (none, s1) => ([], s1)
    | (some p, s1) =>
      let rest := takeRun k s1
      (p :: rest.1, rest.2)

/-- The points of the wrapping takeRun. -/
def takePoints (k : ℕ) (s : BlueNoise) : List Vec2 :=
  (takeRun k s).1

end WrappingBlueNoise

/-! Helper definitions and lemmas shared by several claims. -/

/-- A concrete rng stream used in several counterexamples: constant 0. -/
def zeroStream : ℕ → ℝ := fun _ => 0

/-- Modelled from the spec (refinement target for claim C2, which asserts
that the code draws the candidate this way): a candidate built from two
fresh unit draws, the angle uniform in the full circle and the radius
uniform between one and two minimum radii; with unit draws u and v this is
theta = 2 pi u and r = min_radius + v min_radius. -/
def spec_candidate (parent : Vec2) (min_radius u v : ℝ) : Vec2 :=
  let theta := 2 * PI * u
  let r := min_radius + v * min_radius
  ⟨parent.x + r * Real.cos theta, parent.y + r * Real.sin theta⟩

/-- Prefix stability of the pulled sequence: a shorter run is a prefix of a
longer run from the same state. -/
theorem takePoints_prefix (j : ℕ) : ∀ (k : ℕ) (s : BlueNoise), j ≤ k →
    BlueNoise.takePoints j s = (BlueNoise.takePoints k s).take j := by
  induction j with
  | zero => intro k s _; simp [BlueNoise.takePoints, BlueNoise.takeRun]
  | succ j ih =>
    intro k s hk
    match k, hk with
    | k + 1, hk =>
      rcases hnext : BlueNoise.next s with ⟨op, s1⟩
      cases op with
      | none => simp [BlueNoise.takePoints, BlueNoise.takeRun, hnext]
      | some p =>
        have := ih k s1 (by omega)
        simp only [BlueNoise.takePoints] at this ⊢
        simp [BlueNoise.takeRun, hnext, this]

/-! Numeric helper lemmas for evaluating concrete runs: bounds on the
square root of two, cell computations for min_radius one half, and the
trigonometric values of the seeds used by the concrete rng streams. -/

theorem sqrt_two_gt : (14142 : ℝ) / 10000 < Real.sqrt 2 := by
  have h : ((14142 : ℝ) / 10000) ^ 2 < 2 := by norm_num
  nlinarith [Real.sq_sqrt (by norm_num : (2:ℝ) ≥ 0), Real.sqrt_nonneg 2]

theorem sqrt_two_lt : Real.sqrt 2 < (14143 : ℝ) / 10000 := by
  nlinarith [Real.sq_sqrt (by norm_num : (2:ℝ) ≥ 0), Real.sqrt_nonneg 2]

/-- Dividing by the cell size of a sampler with min_radius one half is
multiplication by twice the square root of two. -/
theorem div_cell_size (a : ℝ) :
    a / (1/2 * FRAC_1_SQRT_2) = a * (2 * Real.sqrt 2) := by
  have h : Real.sqrt 2 ≠ 0 := by
    have := sqrt_two_gt
    intro hz
    rw [hz] at this
    norm_num at this
  rw [FRAC_1_SQRT_2, div_eq_mul_inv, mul_inv, inv_inv]
  have h2 : ((1:ℝ)/2)⁻¹ = 2 := by norm_num
  rw [h2]

/-- The grid dimension for a box of extent five halves at min_radius one
half: the ceiling of five times the square root of two is eight. -/
theorem ceil_five_sqrt_two : ⌈(5/2 : ℝ) / (1/2 * FRAC_1_SQRT_2)⌉ = 8 := by
  rw [div_cell_size]
  have h1 := sqrt_two_gt
  have h2 := sqrt_two_lt
  rw [Int.ceil_eq_iff]
  constructor <;> push_cast <;> nlinarith

theorem floor_103 : ⌊(103/100 : ℝ) / (1/2 * FRAC_1_SQRT_2)⌋ = 2 := by
  rw [div_cell_size]
  have h1 := sqrt_two_gt
  have h2 := sqrt_two_lt
  rw [Int.floor_eq_iff]
  constructor <;> push_cast <;> nlinarith

theorem floor_107 : ⌊(107/100 : ℝ) / (1/2 * FRAC_1_SQRT_2)⌋ = 3 := by
  rw [div_cell_size]
  have h1 := sqrt_two_gt
  have h2 := sqrt_two_lt
  rw [Int.floor_eq_iff]
  constructor <;> push_cast <;> nlinarith

theorem floor_1531 : ⌊(1531/1000 : ℝ) / (1/2 * FRAC_1_SQRT_2)⌋ = 4 := by
  rw [div_cell_size]
  have h1 := sqrt_two_gt
  have h2 := sqrt_two_lt
  rw [Int.floor_eq_iff]
  constructor <;> push_cast <;> nlinarith

theorem floor_14308 : ⌊(3577/2500 : ℝ) / (1/2 * FRAC_1_SQRT_2)⌋ = 4 := by
  rw [div_cell_size]
  have h1 := sqrt_two_gt
  have h2 := sqrt_two_lt
  rw [Int.floor_eq_iff]
  constructor <;> push_cast <;> nlinarith

theorem floor_13706 : ⌊(6853/5000 : ℝ) / (1/2 * FRAC_1_SQRT_2)⌋ = 3 := by
  rw [div_cell_size]
  have h1 := sqrt_two_gt
  have h2 := sqrt_two_lt
  rw [Int.floor_eq_iff]
  constructor <;> push_cast <;> nlinarith

/-- Square roots of concrete rational squares, used to evaluate validity
comparisons: one quarter is at most the square root of x whenever one
sixteenth is at most x. -/
theorem quarter_le_sqrt {x : ℝ} (h : 1/16 ≤ x) : 1/4 ≤ Real.sqrt x := by
  have : Real.sqrt (1/16) ≤ Real.sqrt x := Real.sqrt_le_sqrt h
  have h4 : Real.sqrt (1/16) = 1/4 := by
    rw [show (1/16 : ℝ) = (1/4)^2 by norm_num, Real.sqrt_sq (by norm_num)]
  linarith [h4 ▸ this]

/-- The angle of a zero seed at sample zero: cosine one. -/
theorem cos_seed_zero (m : ℕ) : Real.cos (2 * PI * (0 + (0:ℕ) / (m:ℝ))) = 1 := by
  norm_num [Real.cos_zero]

/-- The angle of a zero seed at sample zero: sine zero. -/
theorem sin_seed_zero (m : ℕ) : Real.sin (2 * PI * (0 + (0:ℕ) / (m:ℝ))) = 0 := by
  norm_num [Real.sin_zero]

/-- The seed driving the third draw of the bounded counterexample run:
its angle has cosine four fifths and sine three fifths. -/
theorem cos_seed_b (m : ℕ) :
    Real.cos (2 * PI * (Real.arccos (4/5) / (2 * PI) + (0:ℕ) / (m:ℝ))) = 4/5 := by
  have hpi : 2 * PI ≠ 0 := by
    simp [PI, Real.pi_ne_zero]
  rw [Nat.cast_zero, zero_div, add_zero, mul_div_cancel₀ _ hpi]
  exact Real.cos_arccos (by norm_num) (by norm_num)

theorem sin_seed_b (m : ℕ) :
    Real.sin (2 * PI * (Real.arccos (4/5) / (2 * PI) + (0:ℕ) / (m:ℝ))) = 3/5 := by
  have hpi : 2 * PI ≠ 0 := by
    simp [PI, Real.pi_ne_zero]
  rw [Nat.cast_zero, zero_div, add_zero, mul_div_cancel₀ _ hpi]
  rw [Real.sin_arccos]
  rw [show (1 : ℝ) - (4/5)^2 = (3/5)^2 by norm_num, Real.sqrt_sq (by norm_num)]

/-! Evaluation lemmas for single calls of next, instantiated by the
concrete runs below. -/

/-- The first call: an uninitialised sampler draws x and y and accepts the
scaled point unconditionally. -/
theorem next_of_init_false (s : BlueNoise) (h : s.init = false) :
    BlueNoise.next s =
      (some ⟨s.rng 0 * s.width, s.rng 1 * s.height⟩,
       BlueNoise.insert_point
         { s with init := true, rng := fun n => s.rng (n + 2) }
         ⟨s.rng 0 * s.width, s.rng 1 * s.height⟩) := by
  unfold BlueNoise.next
  rw [h]
  simp [drawUnit]

/-- A later call whose sample search around the picked parent succeeds:
the point is emitted and inserted, nothing is removed. -/
theorem next_emit (s : BlueNoise) (hinit : s.init = true) (hne : s.active_points ≠ [])
    (p : Vec2)
    (hfind : BlueNoise.find_sample { s with rng := fun n => s.rng (n + 2) }
        (s.active_points.getD (pick_index (s.rng 0) s.active_points.length) ⟨0, 0⟩)
        (s.rng 1) 0 s.max_samples = some p) :
    BlueNoise.next s =
      (some p, BlueNoise.insert_point { s with rng := fun n => s.rng (n + 2) } p) := by
  have hempty : s.active_points.isEmpty = false := by
    cases hc : s.active_points with
    | nil => exact absurd hc hne
    | cons q t => simp [hc]
  unfold BlueNoise.next
  rw [hinit]
  simp only [BlueNoise.nextLoop, hempty, drawUnit, zero_add]
  have hrw : (fun n => s.rng (n + 1 + 1)) = fun n => s.rng (n + 2) := rfl
  simp only [hrw]
  rw [hfind]
  simp [hinit]

/-- A successful sample search: when the candidate at the current sample
number is valid, find_sample returns it at once. -/
theorem find_sample_of_valid (s : BlueNoise) (parent : Vec2) (seed : ℝ)
    (sample m : ℕ) (hm : m ≠ 0)
    (h : s.is_valid (s.get_nearby parent seed sample)) :
    s.find_sample parent seed sample m = some (s.get_nearby parent seed sample) := by
  obtain ⟨m', rfl⟩ : ∃ m', m = m' + 1 := by
    cases m with
    | zero => exact absurd rfl hm
    | succ m' => exact ⟨m', rfl⟩
  unfold BlueNoise.find_sample
  simp [h]

/-!
A concrete bounded run: box five halves by five halves, min_radius one
half, three calls of next. The stream places the initial point at
(1.03, 1.07); the second call (seed 0) spawns a child at angle 0 and the
third call spawns a child of the same parent at the angle with cosine four
fifths and sine three fifths. Because is_valid compares plain Euclidean
distance against radius_squared (one quarter), the third point is accepted
although its distance to the second is about 0.317, below min_radius one
half; the third point also lands in the second point's grid cell 28 and
overwrites it there while the second point stays in the active list.
-/

/-- The rng stream of the bounded run. -/
def trB : ℕ → ℝ := fun n =>
  if n = 0 then 103/250 else if n = 1 then 107/250
  else if n = 5 then Real.arccos (4/5) / (2 * PI) else 0

/-- First emitted point of the bounded run. -/
def p0b : Vec2 := ⟨103/100, 107/100⟩

/-- Second emitted point of the bounded run. -/
def p1b : Vec2 := ⟨1531/1000, 107/100⟩

/-- Third emitted point of the bounded run. -/
def p2b : Vec2 := ⟨3577/2500, 6853/5000⟩

/-- Grid contents after the first insertion (cell 26 holds the initial
point). -/
def gridB1 : ℕ → Option Vec2 := Function.update (fun _ => none) 26 (some p0b)

/-- Grid contents after the second insertion (cell 28 holds the second
point). -/
def gridB2 : ℕ → Option Vec2 := Function.update gridB1 28 (some p1b)

/-- Grid contents after the third insertion: cell 28 is overwritten by the
third point, so the second point is no longer stored anywhere. -/
def gridB3 : ℕ → Option Vec2 := Function.update gridB2 28 (some p2b)

/-- Initial state of the bounded run. -/
def S0b : BlueNoise := BlueNoise.from_rng (5/2) (5/2) (1/2) trB

/-- State after the first call. -/
def S1b : BlueNoise :=
  ⟨5/2, 5/2, 4, 1/2, 1/4, 1/2 * FRAC_1_SQRT_2, gridB1, 8, 8, [p0b],
   fun n => trB (n + 2), true⟩

/-- State after the second call. -/
def S2b : BlueNoise :=
  ⟨5/2, 5/2, 4, 1/2, 1/4, 1/2 * FRAC_1_SQRT_2, gridB2, 8, 8, [p0b, p1b],
   fun n => trB (n + 4), true⟩

/-- State after the third call. -/
def S3b : BlueNoise :=
  ⟨5/2, 5/2, 4, 1/2, 1/4, 1/2 * FRAC_1_SQRT_2, gridB3, 8, 8, [p0b, p1b, p2b],
   fun n => trB (n + 6), true⟩

/-- Field-wise extensionality for sampler states. -/
theorem BlueNoise.eq_of_fields {s t : BlueNoise}
    (h1 : s.width = t.width) (h2 : s.height = t.height)
    (h3 : s.max_samples = t.max_samples) (h4 : s.radius = t.radius)
    (h5 : s.radius_squared = t.radius_squared) (h6 : s.cell_size = t.cell_size)
    (h7 : s.grid = t.grid) (h8 : s.grid_width = t.grid_width)
    (h9 : s.grid_height = t.grid_height) (h10 : s.active_points = t.active_points)
    (h11 : s.rng = t.rng) (h12 : s.init = t.init) : s = t := by
  cases s; cases t; simp_all

/-- Variant of the first-call evaluation with the emitted point given in
evaluated form. -/
theorem next_of_init_false2 (s : BlueNoise) (h : s.init = false) (p : Vec2)
    (hp : (⟨s.rng 0 * s.width, s.rng 1 * s.height⟩ : Vec2) = p) :
    BlueNoise.next s =
      (some p, BlueNoise.insert_point
        { s with init := true, rng := fun n => s.rng (n + 2) } p) := by
  rw [next_of_init_false s h, hp]

theorem tfloor_103 : (⌊(103/100 : ℝ) / (1/2 * FRAC_1_SQRT_2)⌋).toNat = 2 := by
  rw [floor_103]; rfl

theorem tfloor_107 : (⌊(107/100 : ℝ) / (1/2 * FRAC_1_SQRT_2)⌋).toNat = 3 := by
  rw [floor_107]; rfl

theorem tfloor_1531 : (⌊(1531/1000 : ℝ) / (1/2 * FRAC_1_SQRT_2)⌋).toNat = 4 := by
  rw [floor_1531]; rfl

theorem tfloor_14308 : (⌊(3577/2500 : ℝ) / (1/2 * FRAC_1_SQRT_2)⌋).toNat = 4 := by
  rw [floor_14308]; rfl

theorem tfloor_13706 : (⌊(6853/5000 : ℝ) / (1/2 * FRAC_1_SQRT_2)⌋).toNat = 3 := by
  rw [floor_13706]; rfl

/-- Normal form of the constructed initial state. -/
theorem S0b_eq :
    S0b = ⟨5/2, 5/2, 4, 1/2, 1/4, 1/2 * FRAC_1_SQRT_2, fun _ => none, 8, 8, [],
           trB, false⟩ := by
  have h2 : (⌈(5/2 : ℝ) / (1/2 * FRAC_1_SQRT_2)⌉).toNat = 8 := by
    rw [ceil_five_sqrt_two]; rfl
  unfold S0b BlueNoise.from_rng
  simp only [h2, BlueNoise.mk.injEq]
  norm_num

theorem dist_p1b_p0b (s : BlueNoise) : 1/4 ≤ s.distance p1b p0b := by
  unfold BlueNoise.distance
  have h : ((p1b.x - p0b.x) ^ 2 + (p1b.y - p0b.y) ^ 2 : ℝ) = 251001/1000000 := by
    norm_num [p0b, p1b]
  rw [h]
  exact quarter_le_sqrt (by norm_num)

theorem dist_p2b_p0b (s : BlueNoise) : 1/4 ≤ s.distance p2b p0b := by
  unfold BlueNoise.distance
  have h : ((p2b.x - p0b.x) ^ 2 + (p2b.y - p0b.y) ^ 2 : ℝ) = 251001/1000000 := by
    norm_num [p0b, p2b]
  rw [h]
  exact quarter_le_sqrt (by norm_num)

theorem dist_p2b_p1b (s : BlueNoise) : 1/4 ≤ s.distance p2b p1b := by
  unfold BlueNoise.distance
  have h : ((p2b.x - p1b.x) ^ 2 + (p2b.y - p1b.y) ^ 2 : ℝ) = 1004004/10000000 := by
    norm_num [p1b, p2b]
  rw [h]
  exact quarter_le_sqrt (by norm_num)

/-- The second and third emitted points are closer than min_radius. -/
theorem dist_p1b_p2b_lt (s : BlueNoise) : s.distance p1b p2b < 1/2 := by
  unfold BlueNoise.distance
  have h : ((p1b.x - p2b.x) ^ 2 + (p1b.y - p2b.y) ^ 2 : ℝ) = 1004004/10000000 := by
    norm_num [p1b, p2b]
  rw [h]
  have h2 : Real.sqrt (1004004/10000000) < Real.sqrt (1/4) :=
    Real.sqrt_lt_sqrt (by norm_num) (by norm_num)
  have h4 : Real.sqrt (1/4) = 1/2 := by
    rw [show (1/4 : ℝ) = (1/2)^2 by norm_num, Real.sqrt_sq (by norm_num)]
  linarith [h4 ▸ h2]

/-- Validity of the second point against the one-point grid: every stored
target (only the initial point) passes the source's comparison of plain
distance against radius_squared. The fields not read by is_valid are
arbitrary. -/
theorem ivB_p1b (ms : ℕ) (rad : ℝ) (act : List Vec2) (rng : ℕ → ℝ) (ini : Bool) :
    BlueNoise.is_valid
      ⟨5/2, 5/2, ms, rad, 1/4, 1/2 * FRAC_1_SQRT_2, gridB1, 8, 8, act, rng, ini⟩
      p1b := by
  unfold BlueNoise.is_valid
  dsimp only
  refine ⟨by norm_num [p1b], ?_⟩
  intro cx hcx cy hcy t ht
  have htp : t = p0b := by
    by_cases h : cy * 8 + cx = 26
    · rw [h] at ht
      simpa [gridB1] using ht.symm
    · simp [gridB1, Function.update_apply, h] at ht
  subst htp
  exact dist_p1b_p0b _

/-- Validity of the third point against the two-point grid: both stored
targets pass the comparison, the second one because its distance 0.317 is
at least radius_squared 0.25 even though it is below min_radius 0.5. -/
theorem ivB_p2b (ms : ℕ) (rad : ℝ) (act : List Vec2) (rng : ℕ → ℝ) (ini : Bool) :
    BlueNoise.is_valid
      ⟨5/2, 5/2, ms, rad, 1/4, 1/2 * FRAC_1_SQRT_2, gridB2, 8, 8, act, rng, ini⟩
      p2b := by
  unfold BlueNoise.is_valid
  dsimp only
  refine ⟨by norm_num [p2b], ?_⟩
  intro cx hcx cy hcy t ht
  have htp : t = p0b ∨ t = p1b := by
    by_cases h28 : cy * 8 + cx = 28
    · rw [h28] at ht
      right
      simpa [gridB2] using ht.symm
    · by_cases h26 : cy * 8 + cx = 26
      · rw [h26] at ht
        left
        have h2826 : (28 : ℕ) ≠ 26 := by norm_num
        simp only [gridB2, Function.update_apply, if_neg (by norm_num : (26:ℕ) ≠ 28)] at ht
        simpa [gridB1] using ht.symm
      · simp [gridB2, gridB1, Function.update_apply, h28, h26] at ht
  rcases htp with rfl | rfl
  · exact dist_p2b_p0b _
  · exact dist_p2b_p1b _

/-- First call of the bounded run: the initial point is accepted. -/
theorem stepB1 : BlueNoise.next S0b = (some p0b, S1b) := by
  rw [S0b_eq, next_of_init_false2 _ rfl p0b (by norm_num [trB, p0b])]
  refine Prod.ext rfl ?_
  refine BlueNoise.eq_of_fields rfl rfl rfl rfl rfl rfl ?_ rfl rfl (by simp [BlueNoise.insert_point, S1b]) rfl rfl
  show Function.update (fun _ => none)
      ((⟨5/2, 5/2, 4, 1/2, 1/4, 1/2 * FRAC_1_SQRT_2, fun _ => none, 8, 8, [],
        fun n => trB (n + 2), true⟩ : BlueNoise).grid_index p0b) (some p0b) = S1b.grid
  have h26 : (⟨5/2, 5/2, 4, 1/2, 1/4, 1/2 * FRAC_1_SQRT_2, fun _ => none, 8, 8, [],
      fun n => trB (n + 2), true⟩ : BlueNoise).grid_index p0b = 26 := by
    show 8 * (⌊p0b.y / (1/2 * FRAC_1_SQRT_2)⌋).toNat
        + (⌊p0b.x / (1/2 * FRAC_1_SQRT_2)⌋).toNat = 26
    rw [show p0b.y = (107/100 : ℝ) from rfl, show p0b.x = (103/100 : ℝ) from rfl,
      tfloor_107, tfloor_103]
  rw [h26]
  rfl

/-- Second call of the bounded run, generalised over the rng stream: from
the state after one insertion, any stream whose next two draws are zero
picks the initial point as parent and emits the second point. -/
theorem stepB2_gen (f : ℕ → ℝ) (h0 : f 0 = 0) (h1 : f 1 = 0) :
    BlueNoise.next
      (⟨5/2, 5/2, 4, 1/2, 1/4, 1/2 * FRAC_1_SQRT_2, gridB1, 8, 8, [p0b], f, true⟩ : BlueNoise)
      = (some p1b,
         ⟨5/2, 5/2, 4, 1/2, 1/4, 1/2 * FRAC_1_SQRT_2, gridB2, 8, 8, [p0b, p1b],
          fun n => f (n + 2), true⟩) := by
  set T : BlueNoise :=
    ⟨5/2, 5/2, 4, 1/2, 1/4, 1/2 * FRAC_1_SQRT_2, gridB1, 8, 8, [p0b], f, true⟩ with hT
  have hparent :
      T.active_points.getD (pick_index (T.rng 0) T.active_points.length) ⟨0, 0⟩
        = p0b := by
    rw [hT]
    norm_num [h0, pick_index]
  have hnear :
      BlueNoise.get_nearby { T with rng := fun n => T.rng (n + 2) } p0b (T.rng 1) 0
        = p1b := by
    unfold BlueNoise.get_nearby
    rw [hT]
    show (⟨p0b.x + (1/2 + 1/1000) * Real.cos (2 * PI * (f 1 + (0:ℕ) / ((4:ℕ):ℝ))),
           p0b.y + (1/2 + 1/1000) * Real.sin (2 * PI * (f 1 + (0:ℕ) / ((4:ℕ):ℝ)))⟩ : Vec2)
        = p1b
    rw [h1, cos_seed_zero 4, sin_seed_zero 4]
    norm_num [p0b, p1b, Vec2.mk.injEq]
  have hvalid :
      BlueNoise.is_valid { T with rng := fun n => T.rng (n + 2) }
        (BlueNoise.get_nearby { T with rng := fun n => T.rng (n + 2) } p0b
          (T.rng 1) 0) := by
    rw [hnear]
    exact ivB_p1b 4 (1/2) [p0b] _ true
  have hfind :
      BlueNoise.find_sample { T with rng := fun n => T.rng (n + 2) }
        (T.active_points.getD (pick_index (T.rng 0) T.active_points.length) ⟨0, 0⟩)
        (T.rng 1) 0 T.max_samples = some p1b := by
    rw [hparent,
      find_sample_of_valid _ p0b (T.rng 1) 0 T.max_samples (by rw [hT]; norm_num) hvalid,
      hnear]
  rw [next_emit T rfl (by rw [hT]; simp) p1b hfind]
  refine Prod.ext rfl ?_
  refine BlueNoise.eq_of_fields rfl rfl rfl rfl rfl rfl ?_ rfl rfl
    (by rw [hT]; simp [BlueNoise.insert_point]) rfl rfl
  show Function.update gridB1
      ((⟨5/2, 5/2, 4, 1/2, 1/4, 1/2 * FRAC_1_SQRT_2, gridB1, 8, 8, [p0b],
        fun n => T.rng (n + 2), true⟩ : BlueNoise).grid_index p1b) (some p1b)
      = Function.update gridB1 28 (some p1b)
  have h28 : (⟨5/2, 5/2, 4, 1/2, 1/4, 1/2 * FRAC_1_SQRT_2, gridB1, 8, 8, [p0b],
      fun n => T.rng (n + 2), true⟩ : BlueNoise).grid_index p1b = 28 := by
    show 8 * (⌊p1b.y / (1/2 * FRAC_1_SQRT_2)⌋).toNat
        + (⌊p1b.x / (1/2 * FRAC_1_SQRT_2)⌋).toNat = 28
    rw [show p1b.y = (107/100 : ℝ) from rfl, show p1b.x = (1531/1000 : ℝ) from rfl,
      tfloor_107, tfloor_1531]
  rw [h28]

/-- Second call of the bounded run: parent is the initial point, seed 0,
the first sample is the second point and it is accepted. -/
theorem stepB2 : BlueNoise.next S1b = (some p1b, S2b) :=
  stepB2_gen (fun n => trB (n + 2)) (by norm_num [trB]) (by norm_num [trB])

/-- Third call of the bounded run: parent is again the initial point, and
the candidate at cosine four fifths is accepted despite being closer than
min_radius to the second point; it overwrites grid cell 28. -/
theorem stepB3 : BlueNoise.next S2b = (some p2b, S3b) := by
  have hrng1 : S2b.rng 1 = Real.arccos (4/5) / (2 * PI) := by norm_num [S2b, trB]
  have hparent :
      S2b.active_points.getD (pick_index (S2b.rng 0) S2b.active_points.length) ⟨0, 0⟩
        = p0b := by
    norm_num [S2b, trB, pick_index]
  have hnear :
      BlueNoise.get_nearby { S2b with rng := fun n => S2b.rng (n + 2) } p0b (S2b.rng 1) 0
        = p2b := by
    unfold BlueNoise.get_nearby
    rw [hrng1]
    show (⟨p0b.x + (1/2 + 1/1000) *
            Real.cos (2 * PI * (Real.arccos (4/5) / (2 * PI) + (0:ℕ) / ((4:ℕ):ℝ))),
          p0b.y + (1/2 + 1/1000) *
            Real.sin (2 * PI * (Real.arccos (4/5) / (2 * PI) + (0:ℕ) / ((4:ℕ):ℝ)))⟩ : Vec2)
        = p2b
    rw [cos_seed_b 4, sin_seed_b 4]
    norm_num [p0b, p2b, Vec2.mk.injEq]
  have hvalid :
      BlueNoise.is_valid { S2b with rng := fun n => S2b.rng (n + 2) }
        (BlueNoise.get_nearby { S2b with rng := fun n => S2b.rng (n + 2) } p0b
          (S2b.rng 1) 0) := by
    rw [hnear]
    exact ivB_p2b 4 (1/2) [p0b, p1b] _ true
  have hfind :
      BlueNoise.find_sample { S2b with rng := fun n => S2b.rng (n + 2) }
        (S2b.active_points.getD (pick_index (S2b.rng 0) S2b.active_points.length) ⟨0, 0⟩)
        (S2b.rng 1) 0 S2b.max_samples = some p2b := by
    rw [hparent,
      find_sample_of_valid _ p0b (S2b.rng 1) 0 S2b.max_samples (by norm_num [S2b]) hvalid,
      hnear]
  rw [next_emit S2b rfl (by simp [S2b]) p2b hfind]
  refine Prod.ext rfl ?_
  refine BlueNoise.eq_of_fields rfl rfl rfl rfl rfl rfl ?_ rfl rfl (by simp [BlueNoise.insert_point, S2b, S3b]) rfl rfl
  show Function.update gridB2
      ((⟨5/2, 5/2, 4, 1/2, 1/4, 1/2 * FRAC_1_SQRT_2, gridB2, 8, 8, [p0b, p1b],
        fun n => S2b.rng (n + 2), true⟩ : BlueNoise).grid_index p2b) (some p2b) = S3b.grid
  have h28 : (⟨5/2, 5/2, 4, 1/2, 1/4, 1/2 * FRAC_1_SQRT_2, gridB2, 8, 8, [p0b, p1b],
      fun n => S2b.rng (n + 2), true⟩ : BlueNoise).grid_index p2b = 28 := by
    show 8 * (⌊p2b.y / (1/2 * FRAC_1_SQRT_2)⌋).toNat
        + (⌊p2b.x / (1/2 * FRAC_1_SQRT_2)⌋).toNat = 28
    rw [show p2b.y = (6853/5000 : ℝ) from rfl, show p2b.x = (3577/2500 : ℝ) from rfl,
      tfloor_13706, tfloor_14308]
  rw [h28]
  rfl

/-- One successful pull unfolds takeRun by one step. -/
theorem takeRun_succ_some (k : ℕ) (s s' : BlueNoise) (p : Vec2)
    (h : BlueNoise.next s = (some p, s')) :
    BlueNoise.takeRun (k + 1) s =
      (p :: (BlueNoise.takeRun k s').1, (BlueNoise.takeRun k s').2) := by
  simp only [BlueNoise.takeRun, h]

theorem runB : BlueNoise.takeRun 3 S0b = ([p0b, p1b, p2b], S3b) := by
  rw [show (3 : ℕ) = 2 + 1 from rfl, takeRun_succ_some 2 S0b S1b p0b stepB1]
  rw [show (2 : ℕ) = 1 + 1 from rfl, takeRun_succ_some 1 S1b S2b p1b stepB2]
  rw [show (1 : ℕ) = 0 + 1 from rfl, takeRun_succ_some 0 S2b S3b p2b stepB3]
  rfl

/-- The second and third points differ (their x coordinates do). -/
theorem p1b_ne_p2b : p1b ≠ p2b := by
  intro h
  have := congrArg Vec2.x h
  norm_num [p1b, p2b] at this

theorem p0b_ne_p1b : p0b ≠ p1b := by
  intro h
  have := congrArg Vec2.x h
  norm_num [p0b, p1b] at this

/-- One seed function used in concrete counterexamples: every seed yields
the all-zero stream. -/
def sfz : ℕ → ℕ → ℝ := fun _ _ => 0

/-- State reached after one emission from the reseeded dirty sampler of the
reset counterexample. -/
def S2z : BlueNoise :=
  ⟨5/2, 5/2, 4, 1/2, 1/4, 1/2 * FRAC_1_SQRT_2, gridB2, 8, 8, [p0b, p1b],
   fun _ => 0, true⟩

/-- Configuration fields that no call of next ever changes. -/
def SameConfig (s t : BlueNoise) : Prop :=
  s.width = t.width ∧ s.height = t.height ∧ s.max_samples = t.max_samples ∧
  s.radius = t.radius ∧ s.radius_squared = t.radius_squared ∧
  s.cell_size = t.cell_size ∧ s.grid_width = t.grid_width ∧
  s.grid_height = t.grid_height

theorem sameConfig_refl (s : BlueNoise) : SameConfig s s :=
  ⟨rfl, rfl, rfl, rfl, rfl, rfl, rfl, rfl⟩

theorem sameConfig_trans {s t u : BlueNoise} (h1 : SameConfig s t)
    (h2 : SameConfig t u) : SameConfig s u := by
  obtain ⟨a1, a2, a3, a4, a5, a6, a7, a8⟩ := h1
  obtain ⟨b1, b2, b3, b4, b5, b6, b7, b8⟩ := h2
  exact ⟨a1.trans b1, a2.trans b2, a3.trans b3, a4.trans b4, a5.trans b5,
    a6.trans b6, a7.trans b7, a8.trans b8⟩

theorem insert_point_sameConfig (s : BlueNoise) (p : Vec2) :
    SameConfig (s.insert_point p) s :=
  ⟨rfl, rfl, rfl, rfl, rfl, rfl, rfl, rfl⟩

theorem nextLoop_sameConfig (fuel : ℕ) : ∀ s : BlueNoise,
    SameConfig (BlueNoise.nextLoop fuel s).2 s := by
  induction fuel with
  | zero => intro s; exact sameConfig_refl s
  | succ n ih =>
    intro s
    unfold BlueNoise.nextLoop
    by_cases he : s.active_points.isEmpty
    · simp only [he, if_true]
      exact sameConfig_refl s
    · simp only [he, if_false]
      rcases hf : BlueNoise.find_sample { s with rng := fun n => s.rng (n + 1 + 1) }
          (s.active_points.getD (pick_index (s.rng 0) s.active_points.length) ⟨0, 0⟩)
          (s.rng (0 + 1)) 0 s.max_samples with _ | p
      · simp only [drawUnit, hf]
        exact sameConfig_trans (ih _) (sameConfig_refl _)
      · simp only [drawUnit, hf]
        exact insert_point_sameConfig _ _

theorem next_sameConfig (s : BlueNoise) : SameConfig (BlueNoise.next s).2 s := by
  unfold BlueNoise.next
  by_cases hi : s.init
  · simp only [hi, if_true]
    exact nextLoop_sameConfig _ s
  · simp only [hi, if_false]
    exact insert_point_sameConfig _ _

theorem takeRun_sameConfig (k : ℕ) : ∀ s : BlueNoise,
    SameConfig (BlueNoise.takeRun k s).2 s := by
  induction k with
  | zero => intro s; exact sameConfig_refl s
  | succ n ih =>
    intro s
    rcases hn : BlueNoise.next s with ⟨op, s1⟩
    cases op with
    | none =>
      simp only [BlueNoise.takeRun, hn]
      have := next_sameConfig s
      rw [hn] at this
      exact this
    | some p =>
      simp only [BlueNoise.takeRun, hn]
      have h1 := ih s1
      have h2 := next_sameConfig s
      rw [hn] at h2
      exact sameConfig_trans h1 h2

/-! Theorems for the claims. -/

/-- Claim C10: with_min_radius mutates only the stored radius field; the
derived cell_size, the squared radius used by validity testing, the grid
dimensions and contents, the active list, the rng and the init flag are
unchanged, and the validity test itself (which reads radius_squared and
cell_size, never radius) is unaffected. -/
theorem c10_with_min_radius_frame (s : BlueNoise) (r : ℝ) :
    (s.with_min_radius r).radius = r ∧
    (s.with_min_radius r).cell_size = s.cell_size ∧
    (s.with_min_radius r).radius_squared = s.radius_squared ∧
    (s.with_min_radius r).width = s.width ∧
    (s.with_min_radius r).height = s.height ∧
    (s.with_min_radius r).max_samples = s.max_samples ∧
    (s.with_min_radius r).grid = s.grid ∧
    (s.with_min_radius r).grid_width = s.grid_width ∧
    (s.with_min_radius r).grid_height = s.grid_height ∧
    (s.with_min_radius r).active_points = s.active_points ∧
    (s.with_min_radius r).rng = s.rng ∧
    (s.with_min_radius r).init = s.init ∧
    ∀ p, (s.with_min_radius r).is_valid p ↔ s.is_valid p :=
  ⟨rfl, rfl, rfl, rfl, rfl, rfl, rfl, rfl, rfl, rfl, rfl, rfl, fun _ => Iff.rfl⟩

/-- Claim C3, counterexample: constructing with width 0 (an invalid
parameter per the claim) does not signal any failure; from_rng returns a
fully constructed sampler (with an empty grid of width 0), refuting the
claim that a failure value is returned rather than a constructed
sampler. -/
theorem c3_counterexample :
    (BlueNoise.from_rng 0 (5/2) (1/2) zeroStream).width = 0 ∧
    (BlueNoise.from_rng 0 (5/2) (1/2) zeroStream).grid_width = 0 ∧
    (BlueNoise.from_rng 0 (5/2) (1/2) zeroStream).active_points = [] ∧
    (BlueNoise.from_rng 0 (5/2) (1/2) zeroStream).init = false := by
  refine ⟨rfl, ?_, rfl, rfl⟩
  simp [BlueNoise.from_rng]

/-- Claim C3 amended: construction performs no validation at all; for any
width, height and min_radius (invalid values included) from_rng returns a
constructed sampler storing exactly the given parameters, with grid
dimensions the (saturated) ceilings of extent over cell size. -/
theorem c3_amended (w h r : ℝ) (rng : ℕ → ℝ) :
    (BlueNoise.from_rng w h r rng).width = w ∧
    (BlueNoise.from_rng w h r rng).height = h ∧
    (BlueNoise.from_rng w h r rng).radius = r ∧
    (BlueNoise.from_rng w h r rng).radius_squared = r * r ∧
    (BlueNoise.from_rng w h r rng).cell_size = r * FRAC_1_SQRT_2 ∧
    (BlueNoise.from_rng w h r rng).grid_width = (⌈w / (r * FRAC_1_SQRT_2)⌉).toNat ∧
    (BlueNoise.from_rng w h r rng).grid_height = (⌈h / (r * FRAC_1_SQRT_2)⌉).toNat ∧
    (BlueNoise.from_rng w h r rng).active_points = [] ∧
    (BlueNoise.from_rng w h r rng).init = false :=
  ⟨rfl, rfl, rfl, rfl, rfl, rfl, rfl, rfl, rfl⟩

/-- Claim C4, counterexample: with an active list of length 2 no unit draw
can ever select index 1, so the parent index is not drawn uniformly from
the full range (index 1 has probability zero). -/
theorem c4_counterexample :
    ¬ ∃ u : ℝ, 0 ≤ u ∧ u < 1 ∧ pick_index u 2 = 1 := by
  rintro ⟨u, h0, h1, hp⟩
  have hu : ⌊u⌋ = 0 := Int.floor_eq_zero_iff.2 ⟨h0, h1⟩
  simp [pick_index, hu] at hp

/-- Claim C4 amended: the selected index is the floor of u times
(len - 1); it is always in range, it is 0 when len = 1, and for len at
least 2 the last index len - 1 is never produced, so the selection is not
uniform over the whole range. -/
theorem c4_amended (u : ℝ) (len : ℕ) (h0 : 0 ≤ u) (h1 : u < 1) :
    (1 ≤ len → pick_index u len < len) ∧
    (len = 1 → pick_index u len = 0) ∧
    (2 ≤ len → pick_index u len < len - 1) := by
  have hnn : (0 : ℝ) ≤ ((len - 1 : ℕ) : ℝ) := by positivity
  have hfl : ⌊u * ((len - 1 : ℕ) : ℝ)⌋ < ((len - 1 : ℕ) : ℤ) ∨ (len - 1 : ℕ) = 0 := by
    rcases Nat.eq_zero_or_pos (len - 1) with h | h
    · exact Or.inr h
    · left
      rw [Int.floor_lt]
      push_cast
      calc u * ((len - 1 : ℕ) : ℝ) < 1 * ((len - 1 : ℕ) : ℝ) := by
            apply mul_lt_mul_of_pos_right h1
            exact_mod_cast h
        _ = ((len - 1 : ℕ) : ℝ) := one_mul _
  have h00 : 0 ≤ ⌊u * ((len - 1 : ℕ) : ℝ)⌋ := Int.floor_nonneg.2 (by positivity)
  refine ⟨?_, ?_, ?_⟩
  · intro hlen
    rcases hfl with h | h
    · unfold pick_index; omega
    · have hlen1 : len = 1 := by omega
      subst hlen1
      norm_num [pick_index]
  · intro hlen
    subst hlen
    norm_num [pick_index]
  · intro hlen
    rcases hfl with h | h
    · unfold pick_index; omega
    · omega

/-- Witness for the amended claim C4 at u = one half and len = 3. -/
theorem c4_amended_witness :
    ((0:ℝ) ≤ 1/2 ∧ (1/2 : ℝ) < 1) ∧
    ((1 ≤ 3 → pick_index (1/2) 3 < 3) ∧ (3 = 1 → pick_index (1/2) 3 = 0) ∧
      (2 ≤ 3 → pick_index (1/2) 3 < 3 - 1)) :=
  ⟨⟨by norm_num, by norm_num⟩, c4_amended (1/2) 3 (by norm_num) (by norm_num)⟩

/-- Claim C2, counterexample: the code's candidate generator does not
implement the spec's draw of a fresh uniform radius. With unit draws 0 and
nine tenths the spec candidate around (1, 1) at min_radius 1 lies at
distance 1.9 from the parent, while get_nearby places every candidate at
the fixed distance 1.001; the two candidates differ. -/
theorem c2_counterexample :
    (spec_candidate ⟨1, 1⟩ 1 0 (9/10)).x = 1 + 19/10 ∧
    ((BlueNoise.from_rng (5/2) (5/2) 1 zeroStream).get_nearby ⟨1, 1⟩ 0 0).x = 1 + 1001/1000 ∧
    spec_candidate ⟨1, 1⟩ 1 0 (9/10) ≠
      (BlueNoise.from_rng (5/2) (5/2) 1 zeroStream).get_nearby ⟨1, 1⟩ 0 0 := by
  have h1 : (spec_candidate ⟨1, 1⟩ 1 0 (9/10)).x = 1 + 19/10 := by
    simp [spec_candidate]
    norm_num
  have h2 : ((BlueNoise.from_rng (5/2) (5/2) 1 zeroStream).get_nearby ⟨1, 1⟩ 0 0).x
      = 1 + 1001/1000 := by
    simp [BlueNoise.get_nearby, BlueNoise.from_rng]
    norm_num
  refine ⟨h1, h2, fun hc => ?_⟩
  have := congrArg Vec2.x hc
  rw [h1, h2] at this
  norm_num at this

/-- Claim C2 amended: every candidate produced by get_nearby lies at the
fixed distance radius + 0.001 from its parent, at angle
2 pi (seed + sample / max_samples), where the single seed draw is shared by
all attempts of one parent round; no radius is drawn. -/
theorem c2_amended (s : BlueNoise) (parent : Vec2) (seed : ℝ) (sample : ℕ)
    (h : 0 ≤ s.radius) :
    s.distance (s.get_nearby parent seed sample) parent = s.radius + 1/1000 := by
  unfold BlueNoise.distance BlueNoise.get_nearby
  have hR : (0:ℝ) ≤ s.radius + 1/1000 := by linarith
  have key : ∀ t : ℝ,
      (parent.x + (s.radius + 1/1000) * Real.cos t - parent.x) ^ 2 +
      (parent.y + (s.radius + 1/1000) * Real.sin t - parent.y) ^ 2
      = (s.radius + 1/1000) ^ 2 := by
    intro t
    have := Real.sin_sq_add_cos_sq t
    ring_nf
    nlinarith [this]
  simp only
  rw [key, Real.sqrt_sq hR]

/-- Witness for the amended claim C2 at a concrete sampler and parent. -/
theorem c2_amended_witness :
    (0:ℝ) ≤ (BlueNoise.from_rng (5/2) (5/2) (1/2) zeroStream).radius ∧
    (BlueNoise.from_rng (5/2) (5/2) (1/2) zeroStream).distance
      ((BlueNoise.from_rng (5/2) (5/2) (1/2) zeroStream).get_nearby ⟨1, 1⟩ 0 0) ⟨1, 1⟩
      = (BlueNoise.from_rng (5/2) (5/2) (1/2) zeroStream).radius + 1/1000 :=
  ⟨by norm_num [BlueNoise.from_rng],
   c2_amended _ ⟨1, 1⟩ 0 0 (by norm_num [BlueNoise.from_rng])⟩

/-- Claim C5: determinism. A bounded sampler constructed from a fixed
width, height, min_radius and integer seed is a pure value, so two such
samplers produce identical ordered sequences; stated as prefix agreement,
for every prefix length j of a run of length k the first j points of one
construction equal the first j points of the other. -/
theorem c5_determinism (seed_from : ℕ → ℕ → ℝ) (w h r : ℝ) (seed : ℕ)
    (j k : ℕ) (hjk : j ≤ k) :
    BlueNoise.takePoints j (BlueNoise.from_seed seed_from w h r seed) =
      (BlueNoise.takePoints k (BlueNoise.from_seed seed_from w h r seed)).take j :=
  takePoints_prefix j k _ hjk

/-- Witness for claim C5 at a concrete seed function, box and prefix
lengths. -/
theorem c5_determinism_witness :
    1 ≤ 2 ∧
    BlueNoise.takePoints 1 (BlueNoise.from_seed (fun _ _ => 0) 1 1 1 0) =
      (BlueNoise.takePoints 2 (BlueNoise.from_seed (fun _ _ => 0) 1 1 1 0)).take 1 :=
  ⟨by norm_num, c5_determinism (fun _ _ => 0) 1 1 1 0 1 2 (by norm_num)⟩

/-- Claim C1 (the code violates it): on the bounded sampler with width and
height five halves and min_radius one half, the concrete run emits three
points of which the second and third come from successive next calls, are
distinct, and lie at Euclidean distance below min_radius. The cause is
is_valid comparing the plain distance against radius_squared, which is
smaller than the radius for min_radius below one. -/
theorem c1_min_distance_violated :
    BlueNoise.takePoints 3 S0b = [p0b, p1b, p2b] ∧
    p1b ≠ p2b ∧
    S0b.distance p1b p2b < 1/2 := by
  refine ⟨?_, p1b_ne_p2b, dist_p1b_p2b_lt _⟩
  show (BlueNoise.takeRun 3 S0b).1 = _
  rw [runB]

/-- Claim C9 (the code violates it): after the same three-call run, the
second emitted point is still a member of the active list, yet no grid
cell stores it: the third point landed in the same cell 28 and
insert_point silently overwrote it. -/
theorem c9_active_not_in_grid :
    p1b ∈ ((BlueNoise.takeRun 3 S0b).2).active_points ∧
    ∀ i, ((BlueNoise.takeRun 3 S0b).2).grid i ≠ some p1b := by
  rw [runB]
  constructor
  · simp [S3b]
  · intro i h
    by_cases h28 : i = 28
    · subst h28
      have : S3b.grid 28 = some p2b := by
        show gridB3 28 = some p2b
        simp [gridB3]
      rw [this] at h
      exact p1b_ne_p2b (by simpa using h.symm)
    · by_cases h26 : i = 26
      · subst h26
        have : S3b.grid 26 = some p0b := by
          show gridB3 26 = some p0b
          simp [gridB3, gridB2, gridB1, Function.update_apply]
        rw [this] at h
        exact p0b_ne_p1b (by simpa using h)
      · have : S3b.grid i = none := by
          show gridB3 i = none
          simp [gridB3, gridB2, gridB1, Function.update_apply, h28, h26]
        rw [this] at h
        exact Option.noConfusion h

/-- Claim C7, counterexample: applied to a sampler that is not freshly
constructed (here: one that has already emitted and inserted its initial
point), seeding, taking one point, resetting, reseeding with the same seed
and taking one point again yields different sequences: the first run
continues from the dirty grid and emits a child of the stored point, while
the reset run draws a fresh initial point. -/
theorem c7_counterexample :
    (BlueNoise.takeRun 1 (BlueNoise.with_seed sfz S1b 25)).1 = [p1b] ∧
    (BlueNoise.takeRun 1 (BlueNoise.with_seed sfz
        ((BlueNoise.takeRun 1 (BlueNoise.with_seed sfz S1b 25)).2).reset 25)).1
      = [⟨0, 0⟩] ∧
    (BlueNoise.takeRun 1 (BlueNoise.with_seed sfz S1b 25)).1 ≠
      (BlueNoise.takeRun 1 (BlueNoise.with_seed sfz
        ((BlueNoise.takeRun 1 (BlueNoise.with_seed sfz S1b 25)).2).reset 25)).1 := by
  have step1 : BlueNoise.next (BlueNoise.with_seed sfz S1b 25) = (some p1b, S2z) :=
    stepB2_gen (fun _ => 0) rfl rfl
  have hrun1 : BlueNoise.takeRun 1 (BlueNoise.with_seed sfz S1b 25) = ([p1b], S2z) := by
    rw [show (1 : ℕ) = 0 + 1 from rfl, takeRun_succ_some 0 _ _ p1b step1]
    rfl
  have step2 := next_of_init_false2 (BlueNoise.with_seed sfz (S2z.reset) 25) rfl
    (⟨0, 0⟩ : Vec2)
    (by show (⟨(0 : ℝ) * (5/2), (0 : ℝ) * (5/2)⟩ : Vec2) = (⟨0, 0⟩ : Vec2); norm_num)
  have hrun2 : (BlueNoise.takeRun 1 (BlueNoise.with_seed sfz (S2z.reset) 25)).1
      = [⟨0, 0⟩] := by
    rw [show (1 : ℕ) = 0 + 1 from rfl, takeRun_succ_some 0 _ _ ⟨0, 0⟩ step2]
    rfl
  have hne : p1b ≠ (⟨0, 0⟩ : Vec2) := by
    intro h
    have := congrArg Vec2.x h
    norm_num [p1b] at this
  refine ⟨by rw [hrun1], ?_, ?_⟩
  · rw [hrun1]
    exact hrun2
  · rw [hrun1]
    show [p1b] ≠ _
    rw [hrun2]
    intro h
    exact hne (List.head_eq_of_cons_eq h)

/-- Claim C7 amended: the reset plus reseed equivalence does hold for a
freshly constructed sampler: seeding it, pulling k points, then resetting,
reseeding with the same seed and pulling k points again yields the same
list, because reset restores exactly the freshly built grid, active list
and init flag, and the configuration fields are never mutated by next. -/
theorem c7_amended (seed_from : ℕ → ℕ → ℝ) (w h r : ℝ) (f : ℕ → ℝ) (S k : ℕ) :
    (BlueNoise.takeRun k (BlueNoise.with_seed seed_from
        (BlueNoise.from_rng w h r f) S)).1 =
    (BlueNoise.takeRun k (BlueNoise.with_seed seed_from
        ((BlueNoise.takeRun k (BlueNoise.with_seed seed_from
          (BlueNoise.from_rng w h r f) S)).2).reset S)).1 := by
  have hcfg := takeRun_sameConfig k (BlueNoise.with_seed seed_from
    (BlueNoise.from_rng w h r f) S)
  obtain ⟨h1, h2, h3, h4, h5, h6, h7, h8⟩ := hcfg
  have hstate : BlueNoise.with_seed seed_from
      ((BlueNoise.takeRun k (BlueNoise.with_seed seed_from
        (BlueNoise.from_rng w h r f) S)).2).reset S =
      BlueNoise.with_seed seed_from (BlueNoise.from_rng w h r f) S := by
    refine BlueNoise.eq_of_fields ?_ ?_ ?_ ?_ ?_ ?_ rfl ?_ ?_ rfl rfl rfl
    · exact h1
    · exact h2
    · exact h3
    · exact h4
    · exact h5
    · exact h6
    · exact h7
    · exact h8
  rw [hstate]

/-!
A concrete wrapping run: box five halves by five halves, min_radius one
half, three calls of next. The initial point is (0.01, 1); the second call
(seed with cosine minus four fifths) spawns a child that wraps across the
left edge to x = 2.1092 (grid cell column 5), and the third call (seed one
quarter, angle pi over two) spawns (0.01, 1.501) in column 0. The wrapped
5 by 5 block around column 0 examines columns 6, 7, 0, 1, 2 only, so the
stored point in column 5 is never tested, although its squared toroidal
distance to the candidate is 0.2008, below radius_squared 0.25: the
wrapping sampler emits two points at toroidal distance about 0.448, below
min_radius one half. The root cause is that the modular column arithmetic
assumes the box width is an exact multiple of the cell size.
-/

/-- The rng stream of the wrapping run. -/
def trW : ℕ → ℝ := fun n =>
  if n = 0 then 1/250 else if n = 1 then 2/5
  else if n = 3 then Real.arccos (-(4/5)) / (2 * PI)
  else if n = 5 then 1/4 else 0

/-- First emitted point of the wrapping run. -/
def p0w : Vec2 := ⟨1/100, 1⟩

/-- Second emitted point of the wrapping run (wrapped across the left
edge). -/
def p1w : Vec2 := ⟨5273/2500, 6503/5000⟩

/-- Third emitted point of the wrapping run. -/
def p2w : Vec2 := ⟨1/100, 1501/1000⟩

/-- Grid contents after the first wrapping insertion (cell 16). -/
def gridW1 : ℕ → Option Vec2 := Function.update (fun _ => none) 16 (some p0w)

/-- Grid contents after the second wrapping insertion (cell 29, column 5,
row 3). -/
def gridW2 : ℕ → Option Vec2 := Function.update gridW1 29 (some p1w)

/-- Grid contents after the third wrapping insertion (cell 32). -/
def gridW3 : ℕ → Option Vec2 := Function.update gridW2 32 (some p2w)

/-- Initial state of the wrapping run (the inner sampler state of the
WrappingBlueNoise newtype). -/
def S0w : BlueNoise := BlueNoise.from_rng (5/2) (5/2) (1/2) trW

/-- State after the first wrapping call. -/
def S1w : BlueNoise :=
  ⟨5/2, 5/2, 4, 1/2, 1/4, 1/2 * FRAC_1_SQRT_2, gridW1, 8, 8, [p0w],
   fun n => trW (n + 2), true⟩

/-- State after the second wrapping call. -/
def S2w : BlueNoise :=
  ⟨5/2, 5/2, 4, 1/2, 1/4, 1/2 * FRAC_1_SQRT_2, gridW2, 8, 8, [p0w, p1w],
   fun n => trW (n + 4), true⟩

/-- State after the third wrapping call. -/
def S3w : BlueNoise :=
  ⟨5/2, 5/2, 4, 1/2, 1/4, 1/2 * FRAC_1_SQRT_2, gridW3, 8, 8, [p0w, p1w, p2w],
   fun n => trW (n + 6), true⟩

/-- Normal form of the constructed wrapping initial state. -/
theorem S0w_eq :
    S0w = ⟨5/2, 5/2, 4, 1/2, 1/4, 1/2 * FRAC_1_SQRT_2, fun _ => none, 8, 8, [],
           trW, false⟩ := by
  have h2 : (⌈(5/2 : ℝ) / (1/2 * FRAC_1_SQRT_2)⌉).toNat = 8 := by
    rw [ceil_five_sqrt_two]; rfl
  unfold S0w BlueNoise.from_rng
  simp only [h2, BlueNoise.mk.injEq]
  norm_num

theorem floor_001 : ⌊(1/100 : ℝ) / (1/2 * FRAC_1_SQRT_2)⌋ = 0 := by
  rw [div_cell_size]
  have h1 := sqrt_two_gt
  have h2 := sqrt_two_lt
  rw [Int.floor_eq_iff]
  constructor <;> push_cast <;> nlinarith

theorem floor_one : ⌊(1 : ℝ) / (1/2 * FRAC_1_SQRT_2)⌋ = 2 := by
  rw [div_cell_size]
  have h1 := sqrt_two_gt
  have h2 := sqrt_two_lt
  rw [Int.floor_eq_iff]
  constructor <;> push_cast <;> nlinarith

theorem floor_21092 : ⌊(5273/2500 : ℝ) / (1/2 * FRAC_1_SQRT_2)⌋ = 5 := by
  rw [div_cell_size]
  have h1 := sqrt_two_gt
  have h2 := sqrt_two_lt
  rw [Int.floor_eq_iff]
  constructor <;> push_cast <;> nlinarith

theorem floor_13006 : ⌊(6503/5000 : ℝ) / (1/2 * FRAC_1_SQRT_2)⌋ = 3 := by
  rw [div_cell_size]
  have h1 := sqrt_two_gt
  have h2 := sqrt_two_lt
  rw [Int.floor_eq_iff]
  constructor <;> push_cast <;> nlinarith

theorem floor_1501 : ⌊(1501/1000 : ℝ) / (1/2 * FRAC_1_SQRT_2)⌋ = 4 := by
  rw [div_cell_size]
  have h1 := sqrt_two_gt
  have h2 := sqrt_two_lt
  rw [Int.floor_eq_iff]
  constructor <;> push_cast <;> nlinarith

theorem tfloor_001 : (⌊(1/100 : ℝ) / (1/2 * FRAC_1_SQRT_2)⌋).toNat = 0 := by
  rw [floor_001]; rfl

theorem tfloor_one : (⌊(1 : ℝ) / (1/2 * FRAC_1_SQRT_2)⌋).toNat = 2 := by
  rw [floor_one]; rfl

theorem tfloor_21092 : (⌊(5273/2500 : ℝ) / (1/2 * FRAC_1_SQRT_2)⌋).toNat = 5 := by
  rw [floor_21092]; rfl

theorem tfloor_13006 : (⌊(6503/5000 : ℝ) / (1/2 * FRAC_1_SQRT_2)⌋).toNat = 3 := by
  rw [floor_13006]; rfl

theorem tfloor_1501 : (⌊(1501/1000 : ℝ) / (1/2 * FRAC_1_SQRT_2)⌋).toNat = 4 := by
  rw [floor_1501]; rfl

/-- The angle of the wrapping run's second seed: cosine minus four fifths. -/
theorem cos_seed_w (m : ℕ) :
    Real.cos (2 * PI * (Real.arccos (-(4/5)) / (2 * PI) + (0:ℕ) / (m:ℝ))) = -(4/5) := by
  have hpi : 2 * PI ≠ 0 := by simp [PI, Real.pi_ne_zero]
  rw [Nat.cast_zero, zero_div, add_zero, mul_div_cancel₀ _ hpi]
  exact Real.cos_arccos (by norm_num) (by norm_num)

theorem sin_seed_w (m : ℕ) :
    Real.sin (2 * PI * (Real.arccos (-(4/5)) / (2 * PI) + (0:ℕ) / (m:ℝ))) = 3/5 := by
  have hpi : 2 * PI ≠ 0 := by simp [PI, Real.pi_ne_zero]
  rw [Nat.cast_zero, zero_div, add_zero, mul_div_cancel₀ _ hpi]
  rw [Real.sin_arccos]
  rw [show (1 : ℝ) - (-(4/5))^2 = (3/5)^2 by norm_num, Real.sqrt_sq (by norm_num)]

/-- The angle of the wrapping run's third seed (one quarter): pi over two,
cosine zero. -/
theorem cos_seed_quarter (m : ℕ) :
    Real.cos (2 * PI * ((1/4 : ℝ) + (0:ℕ) / (m:ℝ))) = 0 := by
  rw [Nat.cast_zero, zero_div, add_zero, show 2 * PI * (1/4 : ℝ) = Real.pi / 2 by
    rw [PI]; ring]
  exact Real.cos_pi_div_two

theorem sin_seed_quarter (m : ℕ) :
    Real.sin (2 * PI * ((1/4 : ℝ) + (0:ℕ) / (m:ℝ))) = 1 := by
  rw [Nat.cast_zero, zero_div, add_zero, show 2 * PI * (1/4 : ℝ) = Real.pi / 2 by
    rw [PI]; ring]
  exact Real.sin_pi_div_two

/-- Squared toroidal distance from the second to the first wrapping point:
across the seam it is 0.4008 squared plus 0.3006 squared, which passes the
validity threshold of one quarter. -/
theorem Wdist_p1w_p0w_ge (s : BlueNoise) (hw : s.width = 5/2) (hh : s.height = 5/2) :
    1/4 ≤ WrappingBlueNoise.distance s p1w p0w := by
  unfold WrappingBlueNoise.distance
  rw [hw, hh]
  dsimp only
  have hx : |p0w.x - p1w.x| = 5248/2500 := by
    rw [show p0w.x = (1/100 : ℝ) from rfl, show p1w.x = (5273/2500 : ℝ) from rfl,
      abs_of_nonpos (by norm_num)]
    norm_num
  have hy : |p0w.y - p1w.y| = 1503/5000 := by
    rw [show p0w.y = (1 : ℝ) from rfl, show p1w.y = (6503/5000 : ℝ) from rfl,
      abs_of_nonpos (by norm_num)]
    norm_num
  rw [hx, hy,
    show (5/2 : ℝ) - 5248/2500 = 1002/2500 by norm_num,
    min_eq_right (by norm_num : (1002/2500 : ℝ) ≤ 5248/2500),
    show (5/2 : ℝ) - 1503/5000 = 10997/5000 by norm_num,
    min_eq_left (by norm_num : (1503/5000 : ℝ) ≤ 10997/5000)]
  norm_num

/-- Squared toroidal distance from the third wrapping point to the first:
zero in x and 0.501 in y, above the threshold. -/
theorem Wdist_p2w_p0w_ge (s : BlueNoise) (hw : s.width = 5/2) (hh : s.height = 5/2) :
    1/4 ≤ WrappingBlueNoise.distance s p2w p0w := by
  unfold WrappingBlueNoise.distance
  rw [hw, hh]
  dsimp only
  have hx : |p0w.x - p2w.x| = 0 := by
    rw [show p0w.x = (1/100 : ℝ) from rfl, show p2w.x = (1/100 : ℝ) from rfl]
    norm_num
  have hy : |p0w.y - p2w.y| = 501/1000 := by
    rw [show p0w.y = (1 : ℝ) from rfl, show p2w.y = (1501/1000 : ℝ) from rfl,
      abs_of_nonpos (by norm_num)]
    norm_num
  rw [hx, hy,
    show (5/2 : ℝ) - 0 = 5/2 by norm_num,
    min_eq_left (by norm_num : (0 : ℝ) ≤ 5/2),
    show (5/2 : ℝ) - 501/1000 = 1999/1000 by norm_num,
    min_eq_left (by norm_num : (501/1000 : ℝ) ≤ 1999/1000)]
  norm_num

/-- The violation: the squared toroidal distance between the third and the
second wrapping point is 0.2008008, below radius_squared one quarter. -/
theorem Wdist_p2w_p1w_eq (s : BlueNoise) (hw : s.width = 5/2) (hh : s.height = 5/2) :
    WrappingBlueNoise.distance s p2w p1w = 1255005/6250000 := by
  unfold WrappingBlueNoise.distance
  rw [hw, hh]
  dsimp only
  have hx : |p1w.x - p2w.x| = 5248/2500 := by
    rw [show p1w.x = (5273/2500 : ℝ) from rfl, show p2w.x = (1/100 : ℝ) from rfl,
      abs_of_nonneg (by norm_num)]
    norm_num
  have hy : |p1w.y - p2w.y| = 1002/5000 := by
    rw [show p1w.y = (6503/5000 : ℝ) from rfl, show p2w.y = (1501/1000 : ℝ) from rfl,
      abs_of_nonpos (by norm_num)]
    norm_num
  rw [hx, hy,
    show (5/2 : ℝ) - 5248/2500 = 1002/2500 by norm_num,
    min_eq_right (by norm_num : (1002/2500 : ℝ) ≤ 5248/2500),
    show (5/2 : ℝ) - 1002/5000 = 11498/5000 by norm_num,
    min_eq_left (by norm_num : (1002/5000 : ℝ) ≤ 11498/5000)]
  norm_num

/-- Validity of the second wrapping point: the only stored point is the
initial one and it passes the squared toroidal comparison, so the block
membership analysis is not needed. -/
theorem ivW_p1w (ms : ℕ) (rad : ℝ) (act : List Vec2) (rng : ℕ → ℝ) (ini : Bool) :
    WrappingBlueNoise.is_valid
      ⟨5/2, 5/2, ms, rad, 1/4, 1/2 * FRAC_1_SQRT_2, gridW1, 8, 8, act, rng, ini⟩
      p1w := by
  unfold WrappingBlueNoise.is_valid
  dsimp only
  intro cx hcx cy hcy t ht
  have htp : t = p0w := by
    by_cases h : cy * 8 + cx = 16
    · rw [h] at ht
      simpa [gridW1] using ht.symm
    · simp [gridW1, Function.update_apply, h] at ht
  subst htp
  exact Wdist_p1w_p0w_ge _ rfl rfl

/-- Validity of the third wrapping point. The initial point is examined
and passes; the second point, whose squared toroidal distance 0.2008 is
below the threshold, is stored in cell 29 (column 5, row 3), but the
wrapped block around column 0 examines columns 6, 7, 0, 1 and 2 only, so
the validity test never sees it. -/
theorem ivW_p2w (ms : ℕ) (rad : ℝ) (act : List Vec2) (rng : ℕ → ℝ) (ini : Bool) :
    WrappingBlueNoise.is_valid
      ⟨5/2, 5/2, ms, rad, 1/4, 1/2 * FRAC_1_SQRT_2, gridW2, 8, 8, act, rng, ini⟩
      p2w := by
  unfold WrappingBlueNoise.is_valid
  dsimp only
  rw [show p2w.x = (1/100 : ℝ) from rfl, show p2w.y = (1501/1000 : ℝ) from rfl,
    floor_001, floor_1501]
  have hxl : (List.range 5).map (fun k => (Int.emod ((0 : ℤ) - 2 + k) ((8 : ℕ) : ℤ)).toNat)
      = [6, 7, 0, 1, 2] := by decide
  have hyl : (List.range 5).map (fun k => (Int.emod ((4 : ℤ) - 2 + k) ((8 : ℕ) : ℤ)).toNat)
      = [2, 3, 4, 5, 6] := by decide
  rw [hxl, hyl]
  intro cx hcx cy hcy t ht
  have hcx' : cx = 6 ∨ cx = 7 ∨ cx = 0 ∨ cx = 1 ∨ cx = 2 := by simpa using hcx
  have hcy' : cy = 2 ∨ cy = 3 ∨ cy = 4 ∨ cy = 5 ∨ cy = 6 := by simpa using hcy
  have htp : t = p0w ∨ cy * 8 + cx = 29 := by
    by_cases h29 : cy * 8 + cx = 29
    · right; exact h29
    · left
      by_cases h16 : cy * 8 + cx = 16
      · rw [h16] at ht
        simp only [gridW2,
          Function.update_apply, if_neg (show (16 : ℕ) ≠ 29 by norm_num)] at ht
        simpa [gridW1] using ht.symm
      · exfalso
        simp [gridW2, gridW1, Function.update_apply, h29, h16] at ht
  rcases htp with rfl | h29
  · exact Wdist_p2w_p0w_ge _ rfl rfl
  · exfalso
    rcases hcx' with rfl | rfl | rfl | rfl | rfl <;> omega

/-- First-call evaluation for the wrapping iterator. -/
theorem w_next_of_init_false (s : BlueNoise) (h : s.init = false) :
    WrappingBlueNoise.next s =
      (some ⟨s.rng 0 * s.width, s.rng 1 * s.height⟩,
       BlueNoise.insert_point
         { s with init := true, rng := fun n => s.rng (n + 2) }
         ⟨s.rng 0 * s.width, s.rng 1 * s.height⟩) := by
  unfold WrappingBlueNoise.next
  rw [h]
  simp [drawUnit]

/-- First-call evaluation for the wrapping iterator, with the point in
evaluated form. -/
theorem w_next_of_init_false2 (s : BlueNoise) (h : s.init = false) (p : Vec2)
    (hp : (⟨s.rng 0 * s.width, s.rng 1 * s.height⟩ : Vec2) = p) :
    WrappingBlueNoise.next s =
      (some p, BlueNoise.insert_point
        { s with init := true, rng := fun n => s.rng (n + 2) } p) := by
  rw [w_next_of_init_false s h, hp]

/-- A later wrapping call whose sample search succeeds. -/
theorem w_next_emit (s : BlueNoise) (hinit : s.init = true)
    (hne : s.active_points ≠ []) (p : Vec2)
    (hfind : WrappingBlueNoise.find_sample { s with rng := fun n => s.rng (n + 2) }
        (s.active_points.getD (pick_index (s.rng 0) s.active_points.length) ⟨0, 0⟩)
        (s.rng 1) 0 s.max_samples = some p) :
    WrappingBlueNoise.next s =
      (some p, BlueNoise.insert_point { s with rng := fun n => s.rng (n + 2) } p) := by
  have hempty : s.active_points.isEmpty = false := by
    cases hc : s.active_points with
    | nil => exact absurd hc hne
    | cons q t => simp [hc]
  unfold WrappingBlueNoise.next
  rw [hinit]
  simp only [WrappingBlueNoise.nextLoop, hempty, drawUnit, zero_add]
  have hrw : (fun n => s.rng (n + 1 + 1)) = fun n => s.rng (n + 2) := rfl
  simp only [hrw]
  rw [hfind]
  simp [hinit]

/-- A successful wrapping sample search returns the first valid
candidate. -/
theorem w_find_sample_of_valid (s : BlueNoise) (parent : Vec2) (seed : ℝ)
    (sample m : ℕ) (hm : m ≠ 0)
    (h : WrappingBlueNoise.is_valid s (WrappingBlueNoise.get_nearby s parent seed sample)) :
    WrappingBlueNoise.find_sample s parent seed sample m
      = some (WrappingBlueNoise.get_nearby s parent seed sample) := by
  obtain ⟨m2, rfl⟩ : ∃ m2, m = m2 + 1 := by
    cases m with
    | zero => exact absurd rfl hm
    | succ m2 => exact ⟨m2, rfl⟩
  unfold WrappingBlueNoise.find_sample
  simp [h]

/-- One successful pull unfolds the wrapping takeRun by one step. -/
theorem w_takeRun_succ_some (k : ℕ) (s s2 : BlueNoise) (p : Vec2)
    (h : WrappingBlueNoise.next s = (some p, s2)) :
    WrappingBlueNoise.takeRun (k + 1) s =
      (p :: (WrappingBlueNoise.takeRun k s2).1, (WrappingBlueNoise.takeRun k s2).2) := by
  simp only [WrappingBlueNoise.takeRun, h]

/-- First call of the wrapping run: the initial point is accepted. -/
theorem stepW1 : WrappingBlueNoise.next S0w = (some p0w, S1w) := by
  rw [S0w_eq, w_next_of_init_false2 _ rfl p0w (by norm_num [trW, p0w])]
  refine Prod.ext rfl ?_
  refine BlueNoise.eq_of_fields rfl rfl rfl rfl rfl rfl ?_ rfl rfl
    (by simp [BlueNoise.insert_point, S1w]) rfl rfl
  show Function.update (fun _ => none)
      ((⟨5/2, 5/2, 4, 1/2, 1/4, 1/2 * FRAC_1_SQRT_2, fun _ => none, 8, 8, [],
        fun n => trW (n + 2), true⟩ : BlueNoise).grid_index p0w) (some p0w) = S1w.grid
  have h16 : (⟨5/2, 5/2, 4, 1/2, 1/4, 1/2 * FRAC_1_SQRT_2, fun _ => none, 8, 8, [],
      fun n => trW (n + 2), true⟩ : BlueNoise).grid_index p0w = 16 := by
    show 8 * (⌊p0w.y / (1/2 * FRAC_1_SQRT_2)⌋).toNat
        + (⌊p0w.x / (1/2 * FRAC_1_SQRT_2)⌋).toNat = 16
    rw [show p0w.y = (1 : ℝ) from rfl, show p0w.x = (1/100 : ℝ) from rfl,
      tfloor_one, tfloor_001]
  rw [h16]
  rfl

/-- Second call of the wrapping run: the candidate around the initial
point wraps across the left edge and is accepted. -/
theorem stepW2 : WrappingBlueNoise.next S1w = (some p1w, S2w) := by
  have hrng1 : S1w.rng 1 = Real.arccos (-(4/5)) / (2 * PI) := by norm_num [S1w, trW]
  have hparent :
      S1w.active_points.getD (pick_index (S1w.rng 0) S1w.active_points.length) ⟨0, 0⟩
        = p0w := by
    norm_num [S1w, trW, pick_index]
  have hfm1 : fremEuclid (-(977/2500) : ℝ) (5/2) = 5273/2500 := by
    unfold fremEuclid
    rw [show ⌊((-(977/2500) : ℝ)) / (5/2)⌋ = -1 by
      rw [Int.floor_eq_iff]; constructor <;> push_cast <;> norm_num]
    push_cast
    norm_num
  have hfm2 : fremEuclid (6503/5000 : ℝ) (5/2) = 6503/5000 := by
    unfold fremEuclid
    rw [show ⌊((6503/5000 : ℝ)) / (5/2)⌋ = 0 by
      rw [Int.floor_eq_iff]; constructor <;> push_cast <;> norm_num]
    push_cast
    norm_num
  have hnear :
      WrappingBlueNoise.get_nearby { S1w with rng := fun n => S1w.rng (n + 2) } p0w
        (S1w.rng 1) 0 = p1w := by
    unfold WrappingBlueNoise.get_nearby BlueNoise.get_nearby
    rw [hrng1]
    show (⟨fremEuclid (p0w.x + (1/2 + 1/1000) *
            Real.cos (2 * PI * (Real.arccos (-(4/5)) / (2 * PI) + (0:ℕ) / ((4:ℕ):ℝ)))) (5/2),
          fremEuclid (p0w.y + (1/2 + 1/1000) *
            Real.sin (2 * PI * (Real.arccos (-(4/5)) / (2 * PI) + (0:ℕ) / ((4:ℕ):ℝ)))) (5/2)⟩ : Vec2)
        = p1w
    rw [cos_seed_w 4, sin_seed_w 4,
      show p0w.x + (1/2 + 1/1000) * -(4/5) = (-(977/2500) : ℝ) by
        rw [show p0w.x = (1/100 : ℝ) from rfl]; norm_num,
      show p0w.y + (1/2 + 1/1000) * (3/5) = (6503/5000 : ℝ) by
        rw [show p0w.y = (1 : ℝ) from rfl]; norm_num,
      hfm1, hfm2]
    rfl
  have hvalid :
      WrappingBlueNoise.is_valid { S1w with rng := fun n => S1w.rng (n + 2) }
        (WrappingBlueNoise.get_nearby { S1w with rng := fun n => S1w.rng (n + 2) } p0w
          (S1w.rng 1) 0) := by
    rw [hnear]
    exact ivW_p1w 4 (1/2) [p0w] _ true
  have hfind :
      WrappingBlueNoise.find_sample { S1w with rng := fun n => S1w.rng (n + 2) }
        (S1w.active_points.getD (pick_index (S1w.rng 0) S1w.active_points.length) ⟨0, 0⟩)
        (S1w.rng 1) 0 S1w.max_samples = some p1w := by
    rw [hparent,
      w_find_sample_of_valid _ p0w (S1w.rng 1) 0 S1w.max_samples (by norm_num [S1w]) hvalid,
      hnear]
  rw [w_next_emit S1w rfl (by simp [S1w]) p1w hfind]
  refine Prod.ext rfl ?_
  refine BlueNoise.eq_of_fields rfl rfl rfl rfl rfl rfl ?_ rfl rfl
    (by simp [BlueNoise.insert_point, S1w, S2w]) rfl rfl
  show Function.update gridW1
      ((⟨5/2, 5/2, 4, 1/2, 1/4, 1/2 * FRAC_1_SQRT_2, gridW1, 8, 8, [p0w],
        fun n => S1w.rng (n + 2), true⟩ : BlueNoise).grid_index p1w) (some p1w) = S2w.grid
  have h29 : (⟨5/2, 5/2, 4, 1/2, 1/4, 1/2 * FRAC_1_SQRT_2, gridW1, 8, 8, [p0w],
      fun n => S1w.rng (n + 2), true⟩ : BlueNoise).grid_index p1w = 29 := by
    show 8 * (⌊p1w.y / (1/2 * FRAC_1_SQRT_2)⌋).toNat
        + (⌊p1w.x / (1/2 * FRAC_1_SQRT_2)⌋).toNat = 29
    rw [show p1w.y = (6503/5000 : ℝ) from rfl, show p1w.x = (5273/2500 : ℝ) from rfl,
      tfloor_13006, tfloor_21092]
  rw [h29]
  rfl

/-- Third call of the wrapping run: the candidate in grid column 0 is
accepted because the wrapped block never examines column 5, where the
toroidally too-close second point is stored. -/
theorem stepW3 : WrappingBlueNoise.next S2w = (some p2w, S3w) := by
  have hrng1 : S2w.rng 1 = 1/4 := by norm_num [S2w, trW]
  have hparent :
      S2w.active_points.getD (pick_index (S2w.rng 0) S2w.active_points.length) ⟨0, 0⟩
        = p0w := by
    norm_num [S2w, trW, pick_index]
  have hfm1 : fremEuclid (1/100 : ℝ) (5/2) = 1/100 := by
    unfold fremEuclid
    rw [show ⌊((1/100 : ℝ)) / (5/2)⌋ = 0 by
      rw [Int.floor_eq_iff]; constructor <;> push_cast <;> norm_num]
    push_cast
    norm_num
  have hfm2 : fremEuclid (1501/1000 : ℝ) (5/2) = 1501/1000 := by
    unfold fremEuclid
    rw [show ⌊((1501/1000 : ℝ)) / (5/2)⌋ = 0 by
      rw [Int.floor_eq_iff]; constructor <;> push_cast <;> norm_num]
    push_cast
    norm_num
  have hnear :
      WrappingBlueNoise.get_nearby { S2w with rng := fun n => S2w.rng (n + 2) } p0w
        (S2w.rng 1) 0 = p2w := by
    unfold WrappingBlueNoise.get_nearby BlueNoise.get_nearby
    rw [hrng1]
    show (⟨fremEuclid (p0w.x + (1/2 + 1/1000) *
            Real.cos (2 * PI * ((1/4 : ℝ) + (0:ℕ) / ((4:ℕ):ℝ)))) (5/2),
          fremEuclid (p0w.y + (1/2 + 1/1000) *
            Real.sin (2 * PI * ((1/4 : ℝ) + (0:ℕ) / ((4:ℕ):ℝ)))) (5/2)⟩ : Vec2)
        = p2w
    rw [cos_seed_quarter 4, sin_seed_quarter 4,
      show p0w.x + (1/2 + 1/1000) * 0 = (1/100 : ℝ) by
        rw [show p0w.x = (1/100 : ℝ) from rfl]; norm_num,
      show p0w.y + (1/2 + 1/1000) * 1 = (1501/1000 : ℝ) by
        rw [show p0w.y = (1 : ℝ) from rfl]; norm_num,
      hfm1, hfm2]
    rfl
  have hvalid :
      WrappingBlueNoise.is_valid { S2w with rng := fun n => S2w.rng (n + 2) }
        (WrappingBlueNoise.get_nearby { S2w with rng := fun n => S2w.rng (n + 2) } p0w
          (S2w.rng 1) 0) := by
    rw [hnear]
    exact ivW_p2w 4 (1/2) [p0w, p1w] _ true
  have hfind :
      WrappingBlueNoise.find_sample { S2w with rng := fun n => S2w.rng (n + 2) }
        (S2w.active_points.getD (pick_index (S2w.rng 0) S2w.active_points.length) ⟨0, 0⟩)
        (S2w.rng 1) 0 S2w.max_samples = some p2w := by
    rw [hparent,
      w_find_sample_of_valid _ p0w (S2w.rng 1) 0 S2w.max_samples (by norm_num [S2w]) hvalid,
      hnear]
  rw [w_next_emit S2w rfl (by simp [S2w]) p2w hfind]
  refine Prod.ext rfl ?_
  refine BlueNoise.eq_of_fields rfl rfl rfl rfl rfl rfl ?_ rfl rfl
    (by simp [BlueNoise.insert_point, S2w, S3w]) rfl rfl
  show Function.update gridW2
      ((⟨5/2, 5/2, 4, 1/2, 1/4, 1/2 * FRAC_1_SQRT_2, gridW2, 8, 8, [p0w, p1w],
        fun n => S2w.rng (n + 2), true⟩ : BlueNoise).grid_index p2w) (some p2w) = S3w.grid
  have h32 : (⟨5/2, 5/2, 4, 1/2, 1/4, 1/2 * FRAC_1_SQRT_2, gridW2, 8, 8, [p0w, p1w],
      fun n => S2w.rng (n + 2), true⟩ : BlueNoise).grid_index p2w = 32 := by
    show 8 * (⌊p2w.y / (1/2 * FRAC_1_SQRT_2)⌋).toNat
        + (⌊p2w.x / (1/2 * FRAC_1_SQRT_2)⌋).toNat = 32
    rw [show p2w.y = (1501/1000 : ℝ) from rfl, show p2w.x = (1/100 : ℝ) from rfl,
      tfloor_1501, tfloor_001]
  rw [h32]
  rfl

/-- The three-call wrapping run in one equation. -/
theorem runW : WrappingBlueNoise.takeRun 3 S0w = ([p0w, p1w, p2w], S3w) := by
  rw [show (3 : ℕ) = 2 + 1 from rfl, w_takeRun_succ_some 2 S0w S1w p0w stepW1]
  rw [show (2 : ℕ) = 1 + 1 from rfl, w_takeRun_succ_some 1 S1w S2w p1w stepW2]
  rw [show (1 : ℕ) = 0 + 1 from rfl, w_takeRun_succ_some 0 S2w S3w p2w stepW3]
  rfl

theorem p1w_ne_p2w : p1w ≠ p2w := by
  intro h
  have := congrArg Vec2.x h
  norm_num [p1w, p2w] at this

/-- Claim C6 (the code violates it): the wrapping run emits three points
of which the second and third come from successive next calls and lie at
squared toroidal distance 0.2008 (toroidal distance about 0.448), below
min_radius one half. The wrapped neighbour block misses the offending
cell because the box width is not an exact multiple of the cell size. -/
theorem c6_toroidal_min_distance_violated :
    WrappingBlueNoise.takePoints 3 S0w = [p0w, p1w, p2w] ∧
    p1w ≠ p2w ∧
    WrappingBlueNoise.distance S0w p2w p1w < (1/2) * (1/2) ∧
    Real.sqrt (WrappingBlueNoise.distance S0w p2w p1w) < 1/2 := by
  have hd : WrappingBlueNoise.distance S0w p2w p1w = 1255005/6250000 :=
    Wdist_p2w_p1w_eq S0w rfl rfl
  refine ⟨?_, p1w_ne_p2w, ?_, ?_⟩
  · show (WrappingBlueNoise.takeRun 3 S0w).1 = _
    rw [runW]
  · rw [hd]
    norm_num
  · rw [hd]
    have h2 : Real.sqrt (1255005/6250000) < Real.sqrt (1/4) :=
      Real.sqrt_lt_sqrt (by norm_num) (by norm_num)
    have h4 : Real.sqrt (1/4) = 1/2 := by
      rw [show (1/4 : ℝ) = (1/2)^2 by norm_num, Real.sqrt_sq (by norm_num)]
    linarith [h4 ▸ h2]

/-!
A non-terminating bounded run. Box five halves by five halves, min_radius
one half. The initial point is p0i = (1.07, 0.75). Every later call picks
p0i as parent (index draw 0) and the seeds alternate between the angle
with cosine three fifths (candidate caI = (1.3706, 1.1508)) and the angle
pi over two (candidate cbI = (1.07, 1.251)). Both candidates fall in grid
cell (3, 3) = 27, so each insertion overwrites the other; their mutual
distance 0.317 and their distance 0.501 to p0i both pass the buggy
comparison against radius_squared 0.25, so every call emits a point and
the active list grows forever: the terminal marker is never returned.
-/

/-- The parent of the non-terminating run. -/
def p0i : Vec2 := ⟨107/100, 3/4⟩

/-- First alternating candidate of the non-terminating run. -/
def caI : Vec2 := ⟨6853/5000, 2877/2500⟩

/-- Second alternating candidate of the non-terminating run. -/
def cbI : Vec2 := ⟨107/100, 1251/1000⟩

/-- The rng stream of the non-terminating run: initial position draws,
then alternating index draw 0 and seed draws for the two angles. -/
def trI : ℕ → ℝ := fun n =>
  if n = 0 then 107/250 else if n = 1 then 3/10
  else if n % 2 = 0 then 0
  else if (n / 2) % 2 = 1 then Real.arccos (3/5) / (2 * PI) else 1/4

theorem floor_11508 : ⌊(2877/2500 : ℝ) / (1/2 * FRAC_1_SQRT_2)⌋ = 3 := by
  rw [div_cell_size]
  have h1 := sqrt_two_gt
  have h2 := sqrt_two_lt
  rw [Int.floor_eq_iff]
  constructor <;> push_cast <;> nlinarith

theorem floor_1251 : ⌊(1251/1000 : ℝ) / (1/2 * FRAC_1_SQRT_2)⌋ = 3 := by
  rw [div_cell_size]
  have h1 := sqrt_two_gt
  have h2 := sqrt_two_lt
  rw [Int.floor_eq_iff]
  constructor <;> push_cast <;> nlinarith

theorem floor_075 : ⌊(3/4 : ℝ) / (1/2 * FRAC_1_SQRT_2)⌋ = 2 := by
  rw [div_cell_size]
  have h1 := sqrt_two_gt
  have h2 := sqrt_two_lt
  rw [Int.floor_eq_iff]
  constructor <;> push_cast <;> nlinarith

theorem tfloor_11508 : (⌊(2877/2500 : ℝ) / (1/2 * FRAC_1_SQRT_2)⌋).toNat = 3 := by
  rw [floor_11508]; rfl

theorem tfloor_1251 : (⌊(1251/1000 : ℝ) / (1/2 * FRAC_1_SQRT_2)⌋).toNat = 3 := by
  rw [floor_1251]; rfl

theorem tfloor_075 : (⌊(3/4 : ℝ) / (1/2 * FRAC_1_SQRT_2)⌋).toNat = 2 := by
  rw [floor_075]; rfl

/-- The angle of the alternating seed a: cosine three fifths. -/
theorem cos_seed_a (m : ℕ) :
    Real.cos (2 * PI * (Real.arccos (3/5) / (2 * PI) + (0:ℕ) / (m:ℝ))) = 3/5 := by
  have hpi : 2 * PI ≠ 0 := by simp [PI, Real.pi_ne_zero]
  rw [Nat.cast_zero, zero_div, add_zero, mul_div_cancel₀ _ hpi]
  exact Real.cos_arccos (by norm_num) (by norm_num)

theorem sin_seed_a (m : ℕ) :
    Real.sin (2 * PI * (Real.arccos (3/5) / (2 * PI) + (0:ℕ) / (m:ℝ))) = 4/5 := by
  have hpi : 2 * PI ≠ 0 := by simp [PI, Real.pi_ne_zero]
  rw [Nat.cast_zero, zero_div, add_zero, mul_div_cancel₀ _ hpi]
  rw [Real.sin_arccos]
  rw [show (1 : ℝ) - (3/5)^2 = (4/5)^2 by norm_num, Real.sqrt_sq (by norm_num)]

theorem dist_caI_p0i (s : BlueNoise) : 1/4 ≤ s.distance caI p0i := by
  unfold BlueNoise.distance
  have h : ((caI.x - p0i.x) ^ 2 + (caI.y - p0i.y) ^ 2 : ℝ) = 251001/1000000 := by
    norm_num [caI, p0i]
  rw [h]
  exact quarter_le_sqrt (by norm_num)

theorem dist_cbI_p0i (s : BlueNoise) : 1/4 ≤ s.distance cbI p0i := by
  unfold BlueNoise.distance
  have h : ((cbI.x - p0i.x) ^ 2 + (cbI.y - p0i.y) ^ 2 : ℝ) = 251001/1000000 := by
    norm_num [cbI, p0i]
  rw [h]
  exact quarter_le_sqrt (by norm_num)

theorem dist_caI_cbI (s : BlueNoise) : 1/4 ≤ s.distance caI cbI := by
  unfold BlueNoise.distance
  have h : ((caI.x - cbI.x) ^ 2 + (caI.y - cbI.y) ^ 2 : ℝ) = 1004004/10000000 := by
    norm_num [caI, cbI]
  rw [h]
  exact quarter_le_sqrt (by norm_num)

theorem dist_cbI_caI (s : BlueNoise) : 1/4 ≤ s.distance cbI caI := by
  unfold BlueNoise.distance
  have h : ((cbI.x - caI.x) ^ 2 + (cbI.y - caI.y) ^ 2 : ℝ) = 1004004/10000000 := by
    norm_num [caI, cbI]
  rw [h]
  exact quarter_le_sqrt (by norm_num)

/-- Validity of candidate a against any grid that stores only the parent
and candidate b. -/
theorem ivI_ca (ms : ℕ) (rad : ℝ) (act : List Vec2) (rng : ℕ → ℝ) (ini : Bool)
    (g : ℕ → Option Vec2) (hg : ∀ n t, g n = some t → t = p0i ∨ t = cbI) :
    BlueNoise.is_valid
      ⟨5/2, 5/2, ms, rad, 1/4, 1/2 * FRAC_1_SQRT_2, g, 8, 8, act, rng, ini⟩ caI := by
  unfold BlueNoise.is_valid
  dsimp only
  refine ⟨by norm_num [caI], ?_⟩
  intro cx hcx cy hcy t ht
  rcases hg _ _ ht with rfl | rfl
  · exact dist_caI_p0i _
  · exact dist_caI_cbI _

/-- Validity of candidate b against any grid that stores only the parent
and candidate a. -/
theorem ivI_cb (ms : ℕ) (rad : ℝ) (act : List Vec2) (rng : ℕ → ℝ) (ini : Bool)
    (g : ℕ → Option Vec2) (hg : ∀ n t, g n = some t → t = p0i ∨ t = caI) :
    BlueNoise.is_valid
      ⟨5/2, 5/2, ms, rad, 1/4, 1/2 * FRAC_1_SQRT_2, g, 8, 8, act, rng, ini⟩ cbI := by
  unfold BlueNoise.is_valid
  dsimp only
  refine ⟨by norm_num [cbI], ?_⟩
  intro cx hcx cy hcy t ht
  rcases hg _ _ ht with rfl | rfl
  · exact dist_cbI_p0i _
  · exact dist_cbI_caI _

/-- One emitting call of the non-terminating run, candidate a: with index
draw zero and the seed of angle a, the sampler emits caI and overwrites
cell 27. -/
theorem stepI_a (g : ℕ → Option Vec2) (rest : List Vec2) (f : ℕ → ℝ)
    (hg : ∀ n t, g n = some t → t = p0i ∨ t = cbI)
    (h0 : f 0 = 0) (h1 : f 1 = Real.arccos (3/5) / (2 * PI)) :
    BlueNoise.next
      (⟨5/2, 5/2, 4, 1/2, 1/4, 1/2 * FRAC_1_SQRT_2, g, 8, 8, p0i :: rest, f, true⟩ : BlueNoise)
      = (some caI,
         ⟨5/2, 5/2, 4, 1/2, 1/4, 1/2 * FRAC_1_SQRT_2, Function.update g 27 (some caI),
          8, 8, p0i :: (rest ++ [caI]), fun n => f (n + 2), true⟩) := by
  set T : BlueNoise :=
    ⟨5/2, 5/2, 4, 1/2, 1/4, 1/2 * FRAC_1_SQRT_2, g, 8, 8, p0i :: rest, f, true⟩ with hT
  have hparent :
      T.active_points.getD (pick_index (T.rng 0) T.active_points.length) ⟨0, 0⟩
        = p0i := by
    rw [hT]
    show (p0i :: rest).getD (pick_index (f 0) (p0i :: rest).length) ⟨0, 0⟩ = p0i
    rw [h0]
    simp [pick_index]
  have hnear :
      BlueNoise.get_nearby { T with rng := fun n => T.rng (n + 2) } p0i (T.rng 1) 0
        = caI := by
    unfold BlueNoise.get_nearby
    rw [hT]
    show (⟨p0i.x + (1/2 + 1/1000) * Real.cos (2 * PI * (f 1 + (0:ℕ) / ((4:ℕ):ℝ))),
           p0i.y + (1/2 + 1/1000) * Real.sin (2 * PI * (f 1 + (0:ℕ) / ((4:ℕ):ℝ)))⟩ : Vec2)
        = caI
    rw [h1, cos_seed_a 4, sin_seed_a 4]
    norm_num [p0i, caI, Vec2.mk.injEq]
  have hvalid :
      BlueNoise.is_valid { T with rng := fun n => T.rng (n + 2) }
        (BlueNoise.get_nearby { T with rng := fun n => T.rng (n + 2) } p0i
          (T.rng 1) 0) := by
    rw [hnear]
    exact ivI_ca 4 (1/2) (p0i :: rest) _ true g hg
  have hfind :
      BlueNoise.find_sample { T with rng := fun n => T.rng (n + 2) }
        (T.active_points.getD (pick_index (T.rng 0) T.active_points.length) ⟨0, 0⟩)
        (T.rng 1) 0 T.max_samples = some caI := by
    rw [hparent,
      find_sample_of_valid _ p0i (T.rng 1) 0 T.max_samples (by rw [hT]; norm_num) hvalid,
      hnear]
  rw [next_emit T rfl (by rw [hT]; simp) caI hfind]
  refine Prod.ext rfl ?_
  refine BlueNoise.eq_of_fields rfl rfl rfl rfl rfl rfl ?_ rfl rfl
    (by rw [hT]; simp [BlueNoise.insert_point]) rfl rfl
  show Function.update g
      ((⟨5/2, 5/2, 4, 1/2, 1/4, 1/2 * FRAC_1_SQRT_2, g, 8, 8, p0i :: rest,
        fun n => T.rng (n + 2), true⟩ : BlueNoise).grid_index caI) (some caI)
      = Function.update g 27 (some caI)
  have h27 : (⟨5/2, 5/2, 4, 1/2, 1/4, 1/2 * FRAC_1_SQRT_2, g, 8, 8, p0i :: rest,
      fun n => T.rng (n + 2), true⟩ : BlueNoise).grid_index caI = 27 := by
    show 8 * (⌊caI.y / (1/2 * FRAC_1_SQRT_2)⌋).toNat
        + (⌊caI.x / (1/2 * FRAC_1_SQRT_2)⌋).toNat = 27
    rw [show caI.y = (2877/2500 : ℝ) from rfl, show caI.x = (6853/5000 : ℝ) from rfl,
      tfloor_11508, tfloor_13706]
  rw [h27]

/-- One emitting call of the non-terminating run, candidate b: with index
draw zero and seed one quarter, the sampler emits cbI and overwrites cell
27. -/
theorem stepI_b (g : ℕ → Option Vec2) (rest : List Vec2) (f : ℕ → ℝ)
    (hg : ∀ n t, g n = some t → t = p0i ∨ t = caI)
    (h0 : f 0 = 0) (h1 : f 1 = 1/4) :
    BlueNoise.next
      (⟨5/2, 5/2, 4, 1/2, 1/4, 1/2 * FRAC_1_SQRT_2, g, 8, 8, p0i :: rest, f, true⟩ : BlueNoise)
      = (some cbI,
         ⟨5/2, 5/2, 4, 1/2, 1/4, 1/2 * FRAC_1_SQRT_2, Function.update g 27 (some cbI),
          8, 8, p0i :: (rest ++ [cbI]), fun n => f (n + 2), true⟩) := by
  set T : BlueNoise :=
    ⟨5/2, 5/2, 4, 1/2, 1/4, 1/2 * FRAC_1_SQRT_2, g, 8, 8, p0i :: rest, f, true⟩ with hT
  have hparent :
      T.active_points.getD (pick_index (T.rng 0) T.active_points.length) ⟨0, 0⟩
        = p0i := by
    rw [hT]
    show (p0i :: rest).getD (pick_index (f 0) (p0i :: rest).length) ⟨0, 0⟩ = p0i
    rw [h0]
    simp [pick_index]
  have hnear :
      BlueNoise.get_nearby { T with rng := fun n => T.rng (n + 2) } p0i (T.rng 1) 0
        = cbI := by
    unfold BlueNoise.get_nearby
    rw [hT]
    show (⟨p0i.x + (1/2 + 1/1000) * Real.cos (2 * PI * (f 1 + (0:ℕ) / ((4:ℕ):ℝ))),
           p0i.y + (1/2 + 1/1000) * Real.sin (2 * PI * (f 1 + (0:ℕ) / ((4:ℕ):ℝ)))⟩ : Vec2)
        = cbI
    rw [h1, cos_seed_quarter 4, sin_seed_quarter 4]
    norm_num [p0i, cbI, Vec2.mk.injEq]
  have hvalid :
      BlueNoise.is_valid { T with rng := fun n => T.rng (n + 2) }
        (BlueNoise.get_nearby { T with rng := fun n => T.rng (n + 2) } p0i
          (T.rng 1) 0) := by
    rw [hnear]
    exact ivI_cb 4 (1/2) (p0i :: rest) _ true g hg
  have hfind :
      BlueNoise.find_sample { T with rng := fun n => T.rng (n + 2) }
        (T.active_points.getD (pick_index (T.rng 0) T.active_points.length) ⟨0, 0⟩)
        (T.rng 1) 0 T.max_samples = some cbI := by
    rw [hparent,
      find_sample_of_valid _ p0i (T.rng 1) 0 T.max_samples (by rw [hT]; norm_num) hvalid,
      hnear]
  rw [next_emit T rfl (by rw [hT]; simp) cbI hfind]
  refine Prod.ext rfl ?_
  refine BlueNoise.eq_of_fields rfl rfl rfl rfl rfl rfl ?_ rfl rfl
    (by rw [hT]; simp [BlueNoise.insert_point]) rfl rfl
  show Function.update g
      ((⟨5/2, 5/2, 4, 1/2, 1/4, 1/2 * FRAC_1_SQRT_2, g, 8, 8, p0i :: rest,
        fun n => T.rng (n + 2), true⟩ : BlueNoise).grid_index cbI) (some cbI)
      = Function.update g 27 (some cbI)
  have h27 : (⟨5/2, 5/2, 4, 1/2, 1/4, 1/2 * FRAC_1_SQRT_2, g, 8, 8, p0i :: rest,
      fun n => T.rng (n + 2), true⟩ : BlueNoise).grid_index cbI = 27 := by
    show 8 * (⌊cbI.y / (1/2 * FRAC_1_SQRT_2)⌋).toNat
        + (⌊cbI.x / (1/2 * FRAC_1_SQRT_2)⌋).toNat = 27
    rw [show cbI.y = (1251/1000 : ℝ) from rfl, show cbI.x = (107/100 : ℝ) from rfl,
      tfloor_1251, tfloor_107]
  rw [h27]

/-- Grid after the initial insertion of the non-terminating run (cell 19
holds the parent). -/
def gI0 : ℕ → Option Vec2 := Function.update (fun _ => none) 19 (some p0i)

/-- Phase grids of the non-terminating run: before alternating emission j
the grid holds the parent and, from phase one on, the previously emitted
candidate in cell 27. -/
def gI : ℕ → (ℕ → Option Vec2) := fun j =>
  if j = 0 then gI0
  else if j % 2 = 1 then Function.update gI0 27 (some caI)
  else Function.update gI0 27 (some cbI)

/-- Updating the same cell twice keeps only the last write. -/
theorem update_update (f : ℕ → Option Vec2) (a : ℕ) (v w : Option Vec2) :
    Function.update (Function.update f a v) a w = Function.update f a w := by
  funext x
  by_cases h : x = a <;> simp [Function.update_apply, h]

theorem gI_targets_a (j : ℕ) (hj : j % 2 = 0) :
    ∀ n t, gI j n = some t → t = p0i ∨ t = cbI := by
  intro n t ht
  unfold gI at ht
  by_cases hj0 : j = 0
  · rw [if_pos hj0] at ht
    left
    by_cases h19 : n = 19
    · rw [h19] at ht
      simpa [gI0] using ht.symm
    · simp [gI0, Function.update_apply, h19] at ht
  · rw [if_neg hj0, if_neg (by omega)] at ht
    by_cases h27 : n = 27
    · right
      rw [h27] at ht
      simpa using ht.symm
    · left
      rw [Function.update_apply, if_neg h27] at ht
      by_cases h19 : n = 19
      · rw [h19] at ht
        simpa [gI0] using ht.symm
      · simp [gI0, Function.update_apply, h19] at ht

theorem gI_targets_b (j : ℕ) (hj : j % 2 = 1) :
    ∀ n t, gI j n = some t → t = p0i ∨ t = caI := by
  intro n t ht
  unfold gI at ht
  rw [if_neg (by omega), if_pos hj] at ht
  by_cases h27 : n = 27
  · right
    rw [h27] at ht
    simpa using ht.symm
  · left
    rw [Function.update_apply, if_neg h27] at ht
    by_cases h19 : n = 19
    · rw [h19] at ht
      simpa [gI0] using ht.symm
    · simp [gI0, Function.update_apply, h19] at ht

theorem gI_step_a (j : ℕ) (hj : j % 2 = 0) :
    Function.update (gI j) 27 (some caI) = gI (j + 1) := by
  unfold gI
  by_cases hj0 : j = 0
  · rw [if_pos hj0, if_neg (by omega), if_pos (by omega)]
  · rw [if_neg hj0, if_neg (by omega), if_neg (by omega : ¬(j + 1 = 0)),
      if_pos (by omega)]
    exact update_update gI0 27 (some cbI) (some caI)

theorem gI_step_b (j : ℕ) (hj : j % 2 = 1) :
    Function.update (gI j) 27 (some cbI) = gI (j + 1) := by
  unfold gI
  rw [if_neg (by omega), if_pos hj, if_neg (by omega : ¬(j + 1 = 0)),
    if_neg (by omega)]
  exact update_update gI0 27 (some caI) (some cbI)

theorem trI_index (j : ℕ) : trI (2 + 2 * j) = 0 := by
  unfold trI
  rw [if_neg (by omega), if_neg (by omega), if_pos (by omega)]

theorem trI_seed_a (j : ℕ) (hj : j % 2 = 0) :
    trI (3 + 2 * j) = Real.arccos (3/5) / (2 * PI) := by
  unfold trI
  rw [if_neg (by omega), if_neg (by omega), if_neg (by omega), if_pos (by omega)]

theorem trI_seed_b (j : ℕ) (hj : j % 2 = 1) : trI (3 + 2 * j) = 1/4 := by
  unfold trI
  rw [if_neg (by omega), if_neg (by omega), if_neg (by omega), if_neg (by omega)]

/-- The heart of the non-termination argument: from any phase state, every
pull of the run emits a point, so a run of length k returns k points. -/
theorem takeRun_emits_forever (k : ℕ) : ∀ (j : ℕ) (rest : List Vec2),
    ((BlueNoise.takeRun k
      (⟨5/2, 5/2, 4, 1/2, 1/4, 1/2 * FRAC_1_SQRT_2, gI j, 8, 8, p0i :: rest,
        fun n => trI (n + (2 + 2 * j)), true⟩ : BlueNoise)).1).length = k := by
  induction k with
  | zero => intro j rest; rfl
  | succ k ih =>
    intro j rest
    by_cases hj : j % 2 = 0
    · have h0 : (fun n => trI (n + (2 + 2 * j))) 0 = 0 := by
        show trI (0 + (2 + 2 * j)) = 0
        rw [Nat.zero_add]
        exact trI_index j
      have h1 : (fun n => trI (n + (2 + 2 * j))) 1 = Real.arccos (3/5) / (2 * PI) := by
        show trI (1 + (2 + 2 * j)) = _
        rw [show 1 + (2 + 2 * j) = 3 + 2 * j by omega]
        exact trI_seed_a j hj
      have step := stepI_a (gI j) rest (fun n => trI (n + (2 + 2 * j)))
        (gI_targets_a j hj) h0 h1
      rw [takeRun_succ_some k _ _ caI step]
      simp only [List.length_cons]
      have hrng : (fun n => trI (n + 2 + (2 + 2 * j)))
          = (fun n => trI (n + (2 + 2 * (j + 1)))) := by
        funext n
        congr 1
        omega
      rw [hrng, gI_step_a j hj]
      rw [ih (j + 1) (rest ++ [caI])]
    · have hj1 : j % 2 = 1 := by omega
      have h0 : (fun n => trI (n + (2 + 2 * j))) 0 = 0 := by
        show trI (0 + (2 + 2 * j)) = 0
        rw [Nat.zero_add]
        exact trI_index j
      have h1 : (fun n => trI (n + (2 + 2 * j))) 1 = 1/4 := by
        show trI (1 + (2 + 2 * j)) = _
        rw [show 1 + (2 + 2 * j) = 3 + 2 * j by omega]
        exact trI_seed_b j hj1
      have step := stepI_b (gI j) rest (fun n => trI (n + (2 + 2 * j)))
        (gI_targets_b j hj1) h0 h1
      rw [takeRun_succ_some k _ _ cbI step]
      simp only [List.length_cons]
      have hrng : (fun n => trI (n + 2 + (2 + 2 * j)))
          = (fun n => trI (n + (2 + 2 * (j + 1)))) := by
        funext n
        congr 1
        omega
      rw [hrng, gI_step_b j hj1]
      rw [ih (j + 1) (rest ++ [cbI])]

/-- The initial call of the non-terminating run. -/
theorem stepI_0 :
    BlueNoise.next (BlueNoise.from_rng (5/2) (5/2) (1/2) trI)
      = (some p0i,
         (⟨5/2, 5/2, 4, 1/2, 1/4, 1/2 * FRAC_1_SQRT_2, gI 0, 8, 8, p0i :: [],
           fun n => trI (n + (2 + 2 * 0)), true⟩ : BlueNoise)) := by
  have hS : BlueNoise.from_rng (5/2) (5/2) (1/2) trI
      = ⟨5/2, 5/2, 4, 1/2, 1/4, 1/2 * FRAC_1_SQRT_2, fun _ => none, 8, 8, [],
         trI, false⟩ := by
    have h2 : (⌈(5/2 : ℝ) / (1/2 * FRAC_1_SQRT_2)⌉).toNat = 8 := by
      rw [ceil_five_sqrt_two]; rfl
    unfold BlueNoise.from_rng
    simp only [h2, BlueNoise.mk.injEq]
    norm_num
  rw [hS, next_of_init_false2 _ rfl p0i (by norm_num [trI, p0i])]
  refine Prod.ext rfl ?_
  refine BlueNoise.eq_of_fields rfl rfl rfl rfl rfl rfl ?_ rfl rfl
    (by simp [BlueNoise.insert_point]) rfl rfl
  show Function.update (fun _ => none)
      ((⟨5/2, 5/2, 4, 1/2, 1/4, 1/2 * FRAC_1_SQRT_2, fun _ => none, 8, 8, [],
        fun n => trI (n + 2), true⟩ : BlueNoise).grid_index p0i) (some p0i) = gI 0
  have h19 : (⟨5/2, 5/2, 4, 1/2, 1/4, 1/2 * FRAC_1_SQRT_2, fun _ => none, 8, 8, [],
      fun n => trI (n + 2), true⟩ : BlueNoise).grid_index p0i = 19 := by
    show 8 * (⌊p0i.y / (1/2 * FRAC_1_SQRT_2)⌋).toNat
        + (⌊p0i.x / (1/2 * FRAC_1_SQRT_2)⌋).toNat = 19
    rw [show p0i.y = (3/4 : ℝ) from rfl, show p0i.x = (107/100 : ℝ) from rfl,
      tfloor_075, tfloor_107]
  rw [h19]
  show Function.update (fun _ => none) 19 (some p0i) = gI 0
  unfold gI
  rw [if_pos rfl]
  rfl

/-- Every pull of the non-terminating run returns a point: a run of any
length k returns exactly k points, so the terminal answer never occurs. -/
theorem run_trI_never_terminates (k : ℕ) :
    (BlueNoise.takePoints k (BlueNoise.from_rng (5/2) (5/2) (1/2) trI)).length = k := by
  cases k with
  | zero => rfl
  | succ m =>
    show ((BlueNoise.takeRun (m + 1) (BlueNoise.from_rng (5/2) (5/2) (1/2) trI)).1).length
        = m + 1
    rw [takeRun_succ_some m _ _ p0i stepI_0]
    simp only [List.length_cons]
    rw [takeRun_emits_forever m 0 []]

/-- A unit draw selects an in-range index whenever the list is
non-empty. -/
theorem pick_index_lt (u : ℝ) (len : ℕ) (h0 : 0 ≤ u) (h1 : u < 1)
    (hlen : 1 ≤ len) : pick_index u len < len := by
  have hnn : 0 ≤ ⌊u * ((len - 1 : ℕ) : ℝ)⌋ := Int.floor_nonneg.2 (by positivity)
  rcases Nat.eq_zero_or_pos (len - 1) with h | h
  · have hlen1 : len = 1 := by omega
    subst hlen1
    norm_num [pick_index]
  · have hup : ⌊u * ((len - 1 : ℕ) : ℝ)⌋ < ((len - 1 : ℕ) : ℤ) := by
      rw [Int.floor_lt]
      push_cast
      calc u * ((len - 1 : ℕ) : ℝ) < 1 * ((len - 1 : ℕ) : ℝ) := by
            apply mul_lt_mul_of_pos_right h1
            exact_mod_cast h
        _ = ((len - 1 : ℕ) : ℝ) := one_mul _
    unfold pick_index
    omega

/-- A suffix of a valid stream is valid. -/
theorem validStream_shift (f : ℕ → ℝ) (h : ValidStream f) (k : ℕ) :
    ValidStream (fun n => f (n + k)) := fun n => h (n + k)

/-- A loop pass whose sample search succeeds, at any fuel. -/
theorem nextLoop_succ_emit (fuel : ℕ) (s : BlueNoise)
    (hne : s.active_points.isEmpty = false) (p : Vec2)
    (hfind : BlueNoise.find_sample { s with rng := fun n => s.rng (n + 2) }
        (s.active_points.getD (pick_index (s.rng 0) s.active_points.length) ⟨0, 0⟩)
        (s.rng 1) 0 s.max_samples = some p) :
    BlueNoise.nextLoop (fuel + 1) s =
      (some p, BlueNoise.insert_point { s with rng := fun n => s.rng (n + 2) } p) := by
  simp only [BlueNoise.nextLoop, hne, drawUnit, zero_add]
  have hrw : (fun n => s.rng (n + 1 + 1)) = fun n => s.rng (n + 2) := rfl
  simp only [hrw]
  rw [hfind]
  simp

/-- A loop pass whose sample search fails removes the picked parent and
continues with one unit of fuel less. -/
theorem nextLoop_succ_remove (fuel : ℕ) (s : BlueNoise)
    (hne : s.active_points.isEmpty = false)
    (hfind : BlueNoise.find_sample { s with rng := fun n => s.rng (n + 2) }
        (s.active_points.getD (pick_index (s.rng 0) s.active_points.length) ⟨0, 0⟩)
        (s.rng 1) 0 s.max_samples = none) :
    BlueNoise.nextLoop (fuel + 1) s =
      BlueNoise.nextLoop fuel
        { s with rng := (fun n => s.rng (n + 2)), active_points := s.active_points.eraseIdx (pick_index (s.rng 0) s.active_points.length) } := by
  simp only [BlueNoise.nextLoop, hne, drawUnit, zero_add]
  have hrw : (fun n => s.rng (n + 1 + 1)) = fun n => s.rng (n + 2) := rfl
  simp only [hrw]
  rw [hfind]
  simp

/-- Fuel irrelevance for the while loop of next: under a valid rng stream
any fuel at least the active-list length plus one computes the same
answer, because every failed pass strictly shrinks the active list. This
is the termination of a single next call. -/
theorem nextLoop_fuel_ge : ∀ (len : ℕ) (s : BlueNoise), ValidStream s.rng →
    s.active_points.length = len → ∀ fuel, len + 1 ≤ fuel →
    BlueNoise.nextLoop fuel s = BlueNoise.nextLoop (len + 1) s := by
  intro len
  induction len using Nat.strong_induction_on with
  | _ len ih =>
    intro s hv hlen fuel hfuel
    obtain ⟨m, rfl⟩ : ∃ m, fuel = m + 1 := ⟨fuel - 1, by omega⟩
    by_cases hemp : s.active_points.isEmpty
    · simp only [BlueNoise.nextLoop, hemp, if_true]
    · have hemp2 : s.active_points.isEmpty = false := by
        simpa using hemp
      rcases hfv : BlueNoise.find_sample { s with rng := fun n => s.rng (n + 2) }
          (s.active_points.getD (pick_index (s.rng 0) s.active_points.length) ⟨0, 0⟩)
          (s.rng 1) 0 s.max_samples with _ | p
      · have hpos : 1 ≤ s.active_points.length := by
          cases hc : s.active_points with
          | nil => rw [hc] at hemp2; simp at hemp2
          | cons q t => simp [hc]
        have hidx : pick_index (s.rng 0) s.active_points.length
            < s.active_points.length :=
          pick_index_lt _ _ (hv 0).1 (hv 0).2 hpos
        have hlen2 : (s.active_points.eraseIdx
            (pick_index (s.rng 0) s.active_points.length)).length + 1
            = s.active_points.length := List.length_eraseIdx_add_one hidx
        set s2 : BlueNoise :=
          { s with rng := (fun n => s.rng (n + 2)), active_points := s.active_points.eraseIdx (pick_index (s.rng 0) s.active_points.length) } with hs2
        have hv2 : ValidStream s2.rng := validStream_shift s.rng hv 2
        have hlen2l : s2.active_points.length = len - 1 := by
          rw [hs2]
          show (s.active_points.eraseIdx
            (pick_index (s.rng 0) s.active_points.length)).length = len - 1
          omega
        have hlt : len - 1 < len := by omega
        rw [nextLoop_succ_remove m s hemp2 hfv,
          nextLoop_succ_remove len s hemp2 hfv]
        rw [ih (len - 1) hlt s2 hv2 hlen2l m (by omega),
          ih (len - 1) hlt s2 hv2 hlen2l len (by omega)]
      · rw [nextLoop_succ_emit m s hemp2 p hfv, nextLoop_succ_emit len s hemp2 p hfv]

/-- The stream of the non-terminating run is a legitimate rng behaviour:
every draw lies in the unit interval. -/
theorem validStream_trI : ValidStream trI := by
  intro n
  have hpi : (0 : ℝ) < 2 * Real.pi := by positivity
  have h1 : 0 ≤ Real.arccos (3/5) := Real.arccos_nonneg _
  have h2 : Real.arccos (3/5) ≤ Real.pi := Real.arccos_le_pi _
  unfold trI
  by_cases h0 : n = 0
  · rw [if_pos h0]; norm_num
  · rw [if_neg h0]
    by_cases hn1 : n = 1
    · rw [if_pos hn1]; norm_num
    · rw [if_neg hn1]
      by_cases he : n % 2 = 0
      · rw [if_pos he]; norm_num
      · rw [if_neg he]
        by_cases hd : (n / 2) % 2 = 1
        · rw [if_pos hd]
          constructor
          · rw [PI]
            positivity
          · rw [PI, div_lt_one hpi]
            nlinarith [Real.pi_pos]
        · rw [if_neg hd]; norm_num

/-- Claim C8, counterexample to its second half: trI is a legitimate
stream of unit-interval draws, yet the bounded sampler constructed from it
with width and height five halves and min_radius one half emits a point at
every single call; no run of any length is cut short by the terminal
answer, so repeated calls never return the terminal marker. -/
theorem c8_counterexample :
    ValidStream trI ∧
    ¬ ∃ k, (BlueNoise.takePoints k
      (BlueNoise.from_rng (5/2) (5/2) (1/2) trI)).length < k := by
  refine ⟨validStream_trI, ?_⟩
  rintro ⟨k, hk⟩
  rw [run_trI_never_terminates k] at hk
  omega

/-- Claim C8 amended, the half that does hold: a single next call always
terminates. Under a valid rng stream the while loop needs at most
ActiveList length plus one passes, because every pass either returns a
point or strictly shrinks the active list; any fuel beyond that bound
computes the same answer. -/
theorem c8_amended (s : BlueNoise) (fuel : ℕ) (hv : ValidStream s.rng)
    (hf : s.active_points.length + 1 ≤ fuel) :
    BlueNoise.nextLoop fuel s = BlueNoise.nextLoop (s.active_points.length + 1) s :=
  nextLoop_fuel_ge s.active_points.length s hv rfl fuel hf

/-- Witness for the amended claim C8 at a freshly built sampler and fuel
five. -/
theorem c8_amended_witness :
    (ValidStream zeroStream ∧
      (BlueNoise.from_rng 1 1 1 zeroStream).active_points.length + 1 ≤ 5) ∧
    BlueNoise.nextLoop 5 (BlueNoise.from_rng 1 1 1 zeroStream)
      = BlueNoise.nextLoop
          ((BlueNoise.from_rng 1 1 1 zeroStream).active_points.length + 1)
          (BlueNoise.from_rng 1 1 1 zeroStream) :=
  ⟨⟨fun n => by norm_num [zeroStream], by norm_num [BlueNoise.from_rng]⟩,
   c8_amended (BlueNoise.from_rng 1 1 1 zeroStream) 5
     (fun n => by norm_num [zeroStream, BlueNoise.from_rng])
     (by norm_num [BlueNoise.from_rng])⟩
